import Mathlib

/-!
Shallow embedding of the JWT utility core of the daily-tools repository
(src/lib/jwt-utils.ts): base64 / base64url codec (btoa, atob), JSON
serialization and parsing as performed by JSON.stringify / JSON.parse,
token encoding (encodeJwt), decoding (decodeJwt), signature creation
(signJwt) and verification (verifyJwtSignature), and the claim
evaluators (isTokenExpired, isTokenNotYetValid, getTimeRemaining,
getTokenAge).

JavaScript strings are modelled as lists of characters, JavaScript
objects as ordered key/value lists, byte strings as lists of natural
numbers below 256.  The ambient clock read through Date.now() is
modelled as an explicit reference-time argument.  The HMAC functions of
the external crypto-js library are modelled as an abstract family of
digest functions (see HmacFamily below); everything the repository
itself computes around them is embedded concretely.
-/

/-- Convert a Lean string literal to the character-list representation
used for JavaScript strings throughout this development. -/
def cs (s : String) : List Char := s.toList

/-- Decimal digit character for a value below ten. -/
def digitChar (d : Nat) : Char := Char.ofNat (48 + d)

/-- Test for an ASCII decimal digit character. -/
def isDigit (c : Char) : Bool := 48 ≤ c.toNat && c.toNat ≤ 57

/-- Numeric value of an ASCII decimal digit character. -/
def digitVal (c : Char) : Nat := c.toNat - 48

/-- Fueled decimal rendering of a natural number; the fuel bounds the
number of digits produced. -/
def natDigitsAux : Nat → Nat → List Char
  | 0, _ => []
  | fuel + 1, n =>
    if n < 10 then [digitChar n]
    else natDigitsAux fuel (n / 10) ++ [digitChar (n % 10)]

/-- Decimal rendering of a natural number, most significant digit
first, matching how JavaScript renders a non-negative integer. -/
def natDigits (n : Nat) : List Char := natDigitsAux (n + 1) n

/-- Decimal rendering of an integer, matching how JavaScript renders an
integral number value. -/
def intChars (n : Int) : List Char :=
  if n < 0 then '-' :: natDigits n.natAbs else natDigits n.natAbs

/-!
JSON values as produced by JSON.parse and consumed by JSON.stringify.
Numbers are restricted to integers, which covers every numeric claim
the JWT core manipulates (integer Unix seconds).  Objects are ordered
key/value lists, mirroring JavaScript property order.
-/
mutual
inductive Json where
  | null : Json
  | bool (b : Bool) : Json
  | num (n : Int) : Json
  | str (s : List Char) : Json
  | arr (items : JsonArr) : Json
  | obj (members : JsonObj) : Json
deriving DecidableEq
inductive JsonArr where
  | nil : JsonArr
  | cons (head : Json) (tail : JsonArr) : JsonArr
deriving DecidableEq
inductive JsonObj where
  | nil : JsonObj
  | cons (key : List Char) (value : Json) (tail : JsonObj) : JsonObj
deriving DecidableEq
end

/-- Look up a property in an object, first occurrence wins; none models
a JavaScript undefined property access. -/
def objGet : JsonObj → List Char → Option Json
  | .nil, _ => none
  | .cons k v tl, key => if k = key then some v else objGet tl key

/-- Set a property on an object the way a JavaScript assignment or
object spread does: an existing key is updated in place, a new key is
appended at the end. -/
def objSet : JsonObj → List Char → Json → JsonObj
  | .nil, key, val => .cons key val .nil
  | .cons k v tl, key, val =>
    if k = key then .cons k val tl else .cons k v (objSet tl key val)

/-- Property access on an arbitrary JSON value; non-objects yield no
value, as a JavaScript property read on them yields undefined. -/
def jsGetMem : Json → List Char → Option Json
  | .obj members, key => objGet members key
  | _, _ => none

/-- JavaScript truthiness of a JSON value. -/
def jsTruthy : Json → Bool
  | .null => false
  | .bool b => b
  | .num n => n != 0
  | .str s => s != []
  | .arr _ => true
  | .obj _ => true

/-- JavaScript string coercion of a JSON value, as a template literal
would render it. -/
def jsToString : Json → List Char
  | .null => cs "null"
  | .bool b => if b then cs "true" else cs "false"
  | .num n => intChars n
  | .str s => s
  | .arr _ => []
  | .obj _ => cs "[object Object]"

/-- Hexadecimal digit character (lower case), as used by the string
escaping of JSON.stringify. -/
def hexDigit (d : Nat) : Char :=
  if d < 10 then digitChar d else Char.ofNat (87 + d)

/-- Escape of one character inside a JSON string literal, following
JSON.stringify: quote and backslash get a backslash escape, the control
characters backspace, tab, newline, form feed and carriage return get
their short escapes, all other control characters get a unicode escape,
and every other character is emitted verbatim. -/
def escapeChar (c : Char) : List Char :=
  if c = '"' then ['\\', '"']
  else if c = '\\' then ['\\', '\\']
  else if c = '\x08' then ['\\', 'b']
  else if c = '\x09' then ['\\', 't']
  else if c = '\x0a' then ['\\', 'n']
  else if c = '\x0c' then ['\\', 'f']
  else if c = '\x0d' then ['\\', 'r']
  else if c.toNat < 32 then
    ['\\', 'u', '0', '0', hexDigit (c.toNat / 16), hexDigit (c.toNat % 16)]
  else [c]

/-- Escape every character of a JSON string body. -/
def escapeString : List Char → List Char
  | [] => []
  | c :: rest => escapeChar c ++ escapeString rest

/-!
Compact JSON serialization, exactly as JSON.stringify renders a value
with no spacing: object members and array items in order, separated by
commas, string bodies escaped by escapeChar.
-/
mutual
def stringifyVal : Json → List Char
  | .null => cs "null"
  | .bool b => if b then cs "true" else cs "false"
  | .num n => intChars n
  | .str s => '"' :: (escapeString s ++ ['"'])
  | .arr .nil => cs "[]"
  | .arr (.cons v tl) => '[' :: (stringifyVal v ++ stringifyArrTail tl ++ [']'])
  | .obj .nil => cs "{}"
  | .obj (.cons k v tl) =>
    '{' :: '"' :: (escapeString k ++ ['"', ':'] ++ stringifyVal v ++
      stringifyObjTail tl ++ ['}'])
def stringifyArrTail : JsonArr → List Char
  | .nil => []
  | .cons v tl => ',' :: (stringifyVal v ++ stringifyArrTail tl)
def stringifyObjTail : JsonObj → List Char
  | .nil => []
  | .cons k v tl =>
    ',' :: '"' :: (escapeString k ++ ['"', ':'] ++ stringifyVal v ++
      stringifyObjTail tl)
end

/-- JSON whitespace as accepted between tokens by JSON.parse. -/
def isJsonWs (c : Char) : Bool :=
  c = ' ' || c = '\x09' || c = '\x0a' || c = '\x0d'

/-- Drop leading JSON whitespace. -/
def skipWs : List Char → List Char
  | [] => []
  | c :: rest => if isJsonWs c then skipWs rest else c :: rest

/-- Value of a hexadecimal digit character, if it is one. -/
def hexVal (c : Char) : Option Nat :=
  if 48 ≤ c.toNat && c.toNat ≤ 57 then some (c.toNat - 48)
  else if 97 ≤ c.toNat && c.toNat ≤ 102 then some (c.toNat - 87)
  else if 65 ≤ c.toNat && c.toNat ≤ 70 then some (c.toNat - 55)
  else none

/-- Interpretation of a single-character escape inside a JSON string
literal, unicode escapes excluded. -/
def unescapeChar (e : Char) : Option Char :=
  if e = '"' then some '"'
  else if e = '\\' then some '\\'
  else if e = '/' then some '/'
  else if e = 'b' then some '\x08'
  else if e = 't' then some '\x09'
  else if e = 'n' then some '\x0a'
  else if e = 'f' then some '\x0c'
  else if e = 'r' then some '\x0d'
  else none

/-- Parse the body of a JSON string literal after its opening quote,
returning the decoded body and the input following the closing quote.
Unescaped control characters are rejected, as JSON.parse rejects
them. -/
def parseStringBody : List Char → Option (List Char × List Char)
  | [] => none
  | c :: rest =>
    if c = '"' then some ([], rest)
    else if c = '\\' then
      match rest with
      | [] => none
      | e :: rest2 =>
        if e = 'u' then
          match rest2 with
          | h1 :: h2 :: h3 :: h4 :: rest3 =>
            match hexVal h1, hexVal h2, hexVal h3, hexVal h4 with
            | some a, some b, some c2, some d2 =>
              match parseStringBody rest3 with
              | some (s, r) =>
                some (Char.ofNat (4096 * a + 256 * b + 16 * c2 + d2) :: s, r)
              | none => none
            | _, _, _, _ => none
          | _ => none
        else
          match unescapeChar e with
          | some d =>
            match parseStringBody rest2 with
            | some (s, r) => some (d :: s, r)
            | none => none
          | none => none
    else if c.toNat < 32 then none
    else
      match parseStringBody rest with
      | some (s, r) => some (c :: s, r)
      | none => none

/-- Consume a run of decimal digits, folding them onto an accumulator
from the left. -/
def parseDigits : List Char → Nat → Nat × List Char
  | [], acc => (acc, [])
  | c :: rest, acc =>
    if isDigit c then parseDigits rest (acc * 10 + digitVal c)
    else (acc, c :: rest)

/-- Parse an integral JSON number: an optional minus sign followed by
at least one digit. -/
def parseNumber : List Char → Option (Int × List Char)
  | [] => none
  | c :: rest =>
    if c = '-' then
      match rest with
      | [] => none
      | c2 :: rest2 =>
        if isDigit c2 then
          let p := parseDigits rest2 (digitVal c2)
          some (-(p.1 : Int), p.2)
        else none
    else if isDigit c then
      let p := parseDigits rest (digitVal c)
      some ((p.1 : Int), p.2)
    else none

/-- Match an expected literal character sequence at the head of the
input. -/
def expectChars : List Char → List Char → Option (List Char)
  | [], s => some s
  | c :: crest, s =>
    match s with
    | d :: rest => if d = c then expectChars crest rest else none
    | [] => none

/-!
Fueled recursive-descent JSON parser mirroring JSON.parse on the
fragment of JSON the JWT core exchanges.  Every mutual call decreases
the fuel, and the fuel supplied by jsonParse below is always
sufficient for inputs produced by stringifyVal.
-/
mutual
def parseVal : Nat → List Char → Option (Json × List Char)
  | 0, _ => none
  | fuel + 1, s =>
    match skipWs s with
    | [] => none
    | c :: rest =>
      if c = '"' then
        match parseStringBody rest with
        | some (body, r) => some (.str body, r)
        | none => none
      else if c = '{' then
        match skipWs rest with
        | '}' :: r => some (.obj .nil, r)
        | _ =>
          match parseObjItems fuel rest with
          | some (members, r) => some (.obj members, r)
          | none => none
      else if c = '[' then
        match skipWs rest with
        | ']' :: r => some (.arr .nil, r)
        | _ =>
          match parseArrItems fuel rest with
          | some (items, r) => some (.arr items, r)
          | none => none
      else if c = 't' then
        match expectChars (cs "rue") rest with
        | some r => some (.bool true, r)
        | none => none
      else if c = 'f' then
        match expectChars (cs "alse") rest with
        | some r => some (.bool false, r)
        | none => none
      else if c = 'n' then
        match expectChars (cs "ull") rest with
        | some r => some (.null, r)
        | none => none
      else
        match parseNumber (c :: rest) with
        | some (n, r) => some (.num n, r)
        | none => none
def parseArrItems : Nat → List Char → Option (JsonArr × List Char)
  | 0, _ => none
  | fuel + 1, s =>
    match parseVal fuel s with
    | none => none
    | some (v, r) =>
      match skipWs r with
      | ',' :: r2 =>
        match parseArrItems fuel r2 with
        | some (items, r3) => some (.cons v items, r3)
        | none => none
      | ']' :: r2 => some (.cons v .nil, r2)
      | _ => none
def parseObjItems : Nat → List Char → Option (JsonObj × List Char)
  | 0, _ => none
  | fuel + 1, s =>
    match skipWs s with
    | '"' :: rest =>
      match parseStringBody rest with
      | none => none
      | some (k, r) =>
        match skipWs r with
        | ':' :: r2 =>
          match parseVal fuel r2 with
          | none => none
          | some (v, r3) =>
            match skipWs r3 with
            | ',' :: r4 =>
              match parseObjItems fuel r4 with
              | some (members, r5) => some (.cons k v members, r5)
              | none => none
            | '}' :: r4 => some (.cons k v .nil, r4)
            | _ => none
        | _ => none
    | _ => none
end

/-- Model of JSON.parse: parse one value and require that only
whitespace follows it.  The fuel bound length plus one is sufficient
for every serialized value, as proved below. -/
def jsonParse (s : List Char) : Option Json :=
  match parseVal (s.length + 1) s with
  | some (j, rest) => if skipWs rest = [] then some j else none
  | none => none

example : jsonParse (cs "\x7b\"alg\":\"HS256\",\"typ\":\"JWT\"\x7d") =
    some (.obj (.cons (cs "alg") (.str (cs "HS256"))
      (.cons (cs "typ") (.str (cs "JWT")) .nil))) := by decide

example : jsonParse (cs " [1, -20, true, null, \"a\"] ") =
    some (.arr (.cons (.num 1) (.cons (.num (-20)) (.cons (.bool true)
      (.cons .null (.cons (.str (cs "a")) .nil)))))) := by decide

/-- UTF-8 encoding of one character, as TextEncoder produces it. -/
def utf8Char (c : Char) : List Nat :=
  let n := c.toNat
  if n < 128 then [n]
  else if n < 2048 then [192 + n / 64, 128 + n % 64]
  else if n < 65536 then [224 + n / 4096, 128 + n / 64 % 64, 128 + n % 64]
  else [240 + n / 262144, 128 + n / 4096 % 64, 128 + n / 64 % 64, 128 + n % 64]

/-- UTF-8 encoding of a string, modelling new TextEncoder().encode. -/
def utf8Encode : List Char → List Nat
  | [] => []
  | c :: rest => utf8Char c ++ utf8Encode rest

/-- Binary string built from a byte sequence via String.fromCharCode on
each byte, as base64UrlEncode and atob handle binary data. -/
def binaryOf (bytes : List Nat) : List Char := bytes.map Char.ofNat

/-- Characters of the standard base64 alphabet, in index order. -/
def b64Alphabet : List Char :=
  cs "ABCDEFGHIJKLMNOPQRSTUVWXYZabcdefghijklmnopqrstuvwxyz0123456789+/"

/-- Base64 character for a six-bit value. -/
def b64Char (v : Nat) : Char := b64Alphabet.getD v 'A'

/-- Six-bit value of a base64 alphabet character, computed from its
character code. -/
def b64Index (c : Char) : Option Nat :=
  let n := c.toNat
  if 65 ≤ n && n ≤ 90 then some (n - 65)
  else if 97 ≤ n && n ≤ 122 then some (n - 71)
  else if 48 ≤ n && n ≤ 57 then some (n + 4)
  else if n = 43 then some 62
  else if n = 47 then some 63
  else none

/-- Standard padded base64 rendering of a byte sequence, modelling
btoa applied to the corresponding binary string. -/
def btoaChars : List Nat → List Char
  | [] => []
  | [b1] => [b64Char (b1 / 4), b64Char (b1 % 4 * 16), '=', '=']
  | [b1, b2] =>
    [b64Char (b1 / 4), b64Char (b1 % 4 * 16 + b2 / 16), b64Char (b2 % 16 * 4),
     '=']
  | b1 :: b2 :: b3 :: rest =>
    b64Char (b1 / 4) :: b64Char (b1 % 4 * 16 + b2 / 16) ::
    b64Char (b2 % 16 * 4 + b3 / 64) :: b64Char (b3 % 64) :: btoaChars rest

/-- Six-bit groups of a byte sequence, without padding: the values
whose base64 characters survive the padding strip of base64url. -/
def sixbits : List Nat → List Nat
  | [] => []
  | [b1] => [b1 / 4, b1 % 4 * 16]
  | [b1, b2] => [b1 / 4, b1 % 4 * 16 + b2 / 16, b2 % 16 * 4]
  | b1 :: b2 :: b3 :: rest =>
    (b1 / 4) :: (b1 % 4 * 16 + b2 / 16) :: (b2 % 16 * 4 + b3 / 64) ::
    (b3 % 64) :: sixbits rest

/-- Conversion of one base64 character for the base64url form, as the
chained replace calls of the source perform it: plus becomes minus,
slash becomes underscore, padding is dropped. -/
def urlRep (c : Char) : Option Char :=
  if c = '+' then some '-'
  else if c = '/' then some '_'
  else if c = '=' then none
  else some c

/-- Convert a padded base64 string to unpadded base64url. -/
def toBase64Url (s : List Char) : List Char := s.filterMap urlRep

/-- Model of the source's base64UrlEncode: UTF-8 encode the string,
base64 it with btoa, then convert to unpadded base64url. -/
def base64UrlEncode (s : List Char) : List Char :=
  toBase64Url (btoaChars (utf8Encode s))

/-- Whitespace removed by the forgiving base64 decode of atob. -/
def isB64Ws (c : Char) : Bool :=
  c = '\x09' || c = '\x0a' || c = '\x0c' || c = '\x0d' || c = ' '

/-- Strip up to two trailing padding characters. -/
def stripPad (l : List Char) : List Char :=
  match l.reverse with
  | '=' :: '=' :: r => r.reverse
  | '=' :: r => r.reverse
  | _ => l

/-- Map every character to its base64 index, failing on a character
outside the alphabet. -/
def mapB64 : List Char → Option (List Nat)
  | [] => some []
  | c :: rest =>
    match b64Index c, mapB64 rest with
    | some v, some vs => some (v :: vs)
    | _, _ => none

/-- Reassemble bytes from six-bit groups, discarding leftover bits of a
trailing group as the forgiving decode does. -/
def decode6 : List Nat → List Nat
  | a :: b :: c :: d :: rest =>
    (a * 4 + b / 16) :: (b % 16 * 16 + c / 4) :: (c % 4 * 64 + d) ::
    decode6 rest
  | [a, b] => [a * 4 + b / 16]
  | [a, b, c] => [a * 4 + b / 16, b % 16 * 16 + c / 4]
  | _ => []

/-- Model of atob: the forgiving base64 decode.  Whitespace is removed,
well-placed padding is stripped, a length of one modulo four or a
character outside the base64 alphabet is an error, and the six-bit
groups are reassembled into bytes. -/
def atob (s : List Char) : Option (List Nat) :=
  let d0 := s.filter (fun c => !(isB64Ws c))
  let d1 := if d0.length % 4 = 0 then stripPad d0 else d0
  if d1.length % 4 = 1 then none
  else
    match mapB64 d1 with
    | some vs => some (decode6 vs)
    | none => none

/-- Split a string at every occurrence of a separator character, as
the JavaScript String.split does with a single-character separator. -/
def jsSplitAux (sep : Char) : List Char → List Char → List (List Char)
  | [], acc => [acc.reverse]
  | c :: rest, acc =>
    if c = sep then acc.reverse :: jsSplitAux sep rest []
    else jsSplitAux sep rest (c :: acc)

/-- JavaScript split on a single-character separator. -/
def jsSplit (sep : Char) (s : List Char) : List (List Char) :=
  jsSplitAux sep s []

example : jsSplit '.' (cs "a.bc.") = [cs "a", cs "bc", []] := by decide

example : atob (cs "eyJhIjoifn5+In0=") = some (utf8Encode (cs "\x7b\"a\":\"~~~\"\x7d")) := by decide

example : base64UrlEncode (cs "\x7b\"a\":\"~~~\"\x7d") = cs "eyJhIjoifn5-In0" := by decide

example : atob (cs "eyJhIjoifn5-In0") = none := by decide

example : atob (base64UrlEncode (cs "\x7b\"alg\":\"none\",\"typ\":\"JWT\"\x7d")) =
    some (utf8Encode (cs "\x7b\"alg\":\"none\",\"typ\":\"JWT\"\x7d")) := by decide

deriving instance DecidableEq for Except

/-- Modelled from the spec: the keyed-hash digest functions
HmacSHA256, HmacSHA384 and HmacSHA512 of the external crypto-js
library, which is not part of this repository.  Each maps a message and
a secret to the raw digest byte sequence; the signing engine base64url
encodes that digest.  All theorems about signing hold for every such
family, and concrete witnesses instantiate it with testHmac below. -/
structure HmacFamily where
  hs256 : List Char → List Char → List Nat
  hs384 : List Char → List Char → List Nat
  hs512 : List Char → List Char → List Nat

/-- Concrete digest family used by witnesses: a tagged byte rendering
of secret and message.  It stands in for crypto-js in closed
computations; no theorem depends on its internals. -/
def testHmac : HmacFamily where
  hs256 := fun data secret =>
    1 :: (secret.map (fun c => c.toNat % 256) ++ 0 :: data.map (fun c => c.toNat % 256))
  hs384 := fun data secret =>
    2 :: (secret.map (fun c => c.toNat % 256) ++ 0 :: data.map (fun c => c.toNat % 256))
  hs512 := fun data secret =>
    3 :: (secret.map (fun c => c.toNat % 256) ++ 0 :: data.map (fun c => c.toNat % 256))

/-- Model of signJwt: dispatch on the algorithm value, HMAC digest
rendered as base64 and converted to base64url for the three HMAC
algorithms, the empty string for none, and a thrown error — surfaced
as the Except error case — for everything else.  The algorithm is kept
as a JSON value because the verifier passes the raw alg header field
to this switch. -/
def signJwt (H : HmacFamily) (data secret : List Char) (algorithm : Json) :
    Except (List Char) (List Char) :=
  if algorithm = Json.str (cs "HS256") then
    .ok (toBase64Url (btoaChars (H.hs256 data secret)))
  else if algorithm = Json.str (cs "HS384") then
    .ok (toBase64Url (btoaChars (H.hs384 data secret)))
  else if algorithm = Json.str (cs "HS512") then
    .ok (toBase64Url (btoaChars (H.hs512 data secret)))
  else if algorithm = Json.str (cs "none") then
    .ok []
  else
    .error (cs "Unsupported algorithm: " ++ jsToString algorithm)

/-- Header normalization performed by encodeJwt before signing: the
object spread forces alg to the algorithm argument and sets typ to the
caller's typ when that value is truthy, to the string JWT otherwise. -/
def encodeJwtFullHeader (header : JsonObj) (algorithm : List Char) : JsonObj :=
  let typVal :=
    match objGet header (cs "typ") with
    | some v => if jsTruthy v then v else Json.str (cs "JWT")
    | none => Json.str (cs "JWT")
  objSet (objSet header (cs "alg") (Json.str algorithm)) (cs "typ") typVal

/-- Model of encodeJwt: normalize the header, base64url encode header
and payload, sign the joined segments, and join all three segments with
dots.  The error case models the uncaught exception thrown by signJwt
for an unsupported algorithm, which encodeJwt propagates. -/
def encodeJwt (H : HmacFamily) (header payload : JsonObj)
    (secret algorithm : List Char) : Except (List Char) (List Char) :=
  let encodedHeader :=
    base64UrlEncode (stringifyVal (.obj (encodeJwtFullHeader header algorithm)))
  let encodedPayload := base64UrlEncode (stringifyVal (.obj payload))
  match signJwt H (encodedHeader ++ '.' :: encodedPayload) secret
      (Json.str algorithm) with
  | .ok signature => .ok (encodedHeader ++ '.' :: encodedPayload ++ '.' :: signature)
  | .error e => .error e

/-- Error message carried by the exception atob throws on input it
cannot decode; its exact text is never load-bearing. -/
def atobErrMsg : List Char :=
  cs "The string to be decoded is not correctly encoded."

/-- Error message carried by the exception JSON.parse throws on
malformed input; its exact text is never load-bearing. -/
def jsonErrMsg : List Char := cs "Unexpected token in JSON"

/-- Successfully decoded token triple. -/
structure DecodedJwt where
  header : Json
  payload : Json
  signature : List Char
deriving DecidableEq

/-- Result record of decodeJwt. -/
structure JwtDecodeResult where
  isValid : Bool
  decoded : Option DecodedJwt
  error : Option (List Char)
deriving DecidableEq

/-- Model of decodeJwt: empty-token check, split on dots with a
three-segment requirement, then base64 decode via atob and JSON.parse
of header and payload inside a try block whose caught exception becomes
the error field; the third segment is kept verbatim. -/
def decodeJwt (token : List Char) : JwtDecodeResult :=
  if token = [] then ⟨false, none, some (cs "Token is empty")⟩
  else
    match jsSplit '.' token with
    | [part0, part1, part2] =>
      match atob part0 with
      | none => ⟨false, none, some atobErrMsg⟩
      | some headerBytes =>
        match jsonParse (binaryOf headerBytes) with
        | none => ⟨false, none, some jsonErrMsg⟩
        | some header =>
          match atob part1 with
          | none => ⟨false, none, some atobErrMsg⟩
          | some payloadBytes =>
            match jsonParse (binaryOf payloadBytes) with
            | none => ⟨false, none, some jsonErrMsg⟩
            | some payload => ⟨true, some ⟨header, payload, part2⟩, none⟩
    | _ =>
      ⟨false, none,
       some (cs "Invalid token format. JWT should have three parts separated by dots.")⟩

/-- Result record of verifyJwtSignature. -/
structure JwtVerificationResult where
  isValid : Bool
  error : Option (List Char)
deriving DecidableEq

/-- Model of verifyJwtSignature: required-inputs check, three-segment
check, header extraction via atob and JSON.parse, alg presence check,
recomputation of the expected signature and plain equality comparison;
every exception inside the try block is caught and surfaced as the
error field. -/
def verifyJwtSignature (H : HmacFamily) (token secret : List Char) :
    JwtVerificationResult :=
  if token = [] || secret = [] then
    ⟨false, some (cs "Token and secret are required")⟩
  else
    match jsSplit '.' token with
    | [encodedHeader, encodedPayload, signature] =>
      match atob encodedHeader with
      | none => ⟨false, some atobErrMsg⟩
      | some headerBytes =>
        match jsonParse (binaryOf headerBytes) with
        | none => ⟨false, some jsonErrMsg⟩
        | some header =>
          match jsGetMem header (cs "alg") with
          | none => ⟨false, some (cs "No algorithm specified in header")⟩
          | some algVal =>
            if !jsTruthy algVal then
              ⟨false, some (cs "No algorithm specified in header")⟩
            else
              match signJwt H (encodedHeader ++ '.' :: encodedPayload) secret
                  algVal with
              | .error e => ⟨false, some e⟩
              | .ok expectedSignature =>
                if signature = expectedSignature then ⟨true, none⟩
                else ⟨false, some (cs "Signature verification failed")⟩
    | _ => ⟨false, some (cs "Invalid token format")⟩

/-- Model of getSupportedAlgorithms: the closed list of algorithms the
signing engine can execute. -/
def getSupportedAlgorithms : List (List Char) :=
  [cs "HS256", cs "HS384", cs "HS512", cs "none"]

/-- Decoded payload as typed by the JwtPayload interface for the claim
evaluators: the three numeric time claims, each optional. -/
structure JwtPayload where
  exp : Option Int := none
  nbf : Option Int := none
  iat : Option Int := none

/-- Model of isTokenExpired with the clock passed explicitly: a falsy
exp claim (absent or zero) means never expired, otherwise the token is
expired when exp is strictly below the current time. -/
def isTokenExpired (payload : JwtPayload) (currentTime : Int) : Bool :=
  match payload.exp with
  | none => false
  | some e => if e = 0 then false else decide (e < currentTime)

/-- Model of isTokenNotYetValid with the clock passed explicitly: a
falsy nbf claim means valid, otherwise not yet valid when nbf is
strictly above the current time. -/
def isTokenNotYetValid (payload : JwtPayload) (currentTime : Int) : Bool :=
  match payload.nbf with
  | none => false
  | some n => if n = 0 then false else decide (n > currentTime)

/-- Model of getTimeRemaining with the clock passed explicitly,
bucketing the remaining seconds exactly as the source formats them. -/
def getTimeRemaining (payload : JwtPayload) (currentTime : Int) : String :=
  match payload.exp with
  | none => "No expiration"
  | some e =>
    if e = 0 then "No expiration"
    else
      let remainingSeconds := e - currentTime
      if remainingSeconds ≤ 0 then "Expired"
      else if remainingSeconds < 60 then
        toString remainingSeconds ++ " seconds"
      else if remainingSeconds < 3600 then
        toString (remainingSeconds / 60) ++ " minutes"
      else if remainingSeconds < 86400 then
        toString (remainingSeconds / 3600) ++ " hours"
      else
        toString (remainingSeconds / 86400) ++ " days"

/-- Model of getTokenAge with the clock passed explicitly, bucketing
the age exactly as the source formats it. -/
def getTokenAge (payload : JwtPayload) (currentTime : Int) : String :=
  match payload.iat with
  | none => "Unknown"
  | some i =>
    if i = 0 then "Unknown"
    else
      let ageSeconds := currentTime - i
      if ageSeconds ≤ 0 then "Just issued"
      else if ageSeconds < 60 then
        toString ageSeconds ++ " seconds"
      else if ageSeconds < 3600 then
        toString (ageSeconds / 60) ++ " minutes"
      else if ageSeconds < 86400 then
        toString (ageSeconds / 3600) ++ " hours"
      else
        toString (ageSeconds / 86400) ++ " days"

example : getTimeRemaining ⟨some 330, none, none⟩ 30 = "5 minutes" := by decide

example :
    encodeJwt testHmac .nil .nil (cs "a") (cs "none") =
      .ok (cs "eyJhbGciOiJub25lIiwidHlwIjoiSldUIn0.e30.") := by decide

example :
    verifyJwtSignature testHmac (cs "eyJhbGciOiJub25lIiwidHlwIjoiSldUIn0.e30.")
      (cs "b") = ⟨true, none⟩ := by decide

example :
    (decodeJwt (cs "eyJhbGciOiJub25lIiwidHlwIjoiSldUIn0.e30.")).decoded =
      some ⟨.obj (.cons (cs "alg") (.str (cs "none"))
              (.cons (cs "typ") (.str (cs "JWT")) .nil)),
            .obj .nil, []⟩ := by decide

/-- All characters of a string are ASCII. -/
def allAscii (s : List Char) : Bool := s.all (fun c => c.toNat < 128)

/-- The first character, if any, is a decimal digit; used to delimit
greedy number parsing. -/
def headIsDigit : List Char → Bool
  | [] => false
  | c :: _ => isDigit c

/-!
Fuel measures for the parser: parsing the serialization of a value
needs at most this much fuel, as the round-trip theorems below prove.
-/
mutual
def jfuel : Json → Nat
  | .null => 1
  | .bool _ => 1
  | .num _ => 1
  | .str _ => 1
  | .arr items => 1 + afuel items
  | .obj members => 1 + ofuel members
def afuel : JsonArr → Nat
  | .nil => 0
  | .cons v tl => 1 + max (jfuel v) (afuel tl)
def ofuel : JsonObj → Nat
  | .nil => 0
  | .cons _ v tl => 1 + max (jfuel v) (ofuel tl)
end

/-!
Theorems.  Each claim of the specification gets one theorem below,
together with a witness for theorems carrying hypotheses and a
counterexample where the claim as stated fails on the code.
-/

/-- Claim C5, counterexample: with exp present and equal to zero and
reference time one, the claim predicts expiry because exp is below now,
but isTokenExpired treats the falsy zero claim as absent and returns
false. -/
theorem isTokenExpired_zero_exp_cx :
    isTokenExpired ⟨some 0, none, none⟩ 1 = false ∧ (0 : Int) < 1 :=
  ⟨rfl, by decide⟩

/-- Claim C5, amended: isTokenExpired returns false when the exp claim
is absent or zero, and returns the truth value of exp lower than now
for every nonzero exp. -/
theorem isTokenExpired_spec (p : JwtPayload) (now : Int) :
    (p.exp = none → isTokenExpired p now = false) ∧
    (p.exp = some 0 → isTokenExpired p now = false) ∧
    (∀ e, p.exp = some e → e ≠ 0 →
      (isTokenExpired p now = true ↔ e < now)) := by
  refine ⟨fun h => by simp [isTokenExpired, h],
    fun h => by simp [isTokenExpired, h], fun e h he => ?_⟩
  simp only [isTokenExpired, h]
  rw [if_neg he]
  simp

/-- Witness for the amended claim C5 at concrete payloads. -/
theorem isTokenExpired_spec_witness :
    isTokenExpired ⟨none, none, none⟩ 3 = false ∧
    isTokenExpired ⟨some 0, none, none⟩ 3 = false ∧
    isTokenExpired ⟨some 5, none, none⟩ 9 = true :=
  ⟨(isTokenExpired_spec ⟨none, none, none⟩ 3).1 rfl,
   (isTokenExpired_spec ⟨some 0, none, none⟩ 3).2.1 rfl,
   ((isTokenExpired_spec ⟨some 5, none, none⟩ 9).2.2 5 rfl
     (by decide)).mpr (by decide)⟩

/-- Claim C6, counterexample: with exp present and equal to zero and
reference time one the difference exp minus now is nonpositive, so the
claim predicts the string Expired, but getTimeRemaining treats the
falsy zero claim as absent and returns No expiration. -/
theorem getTimeRemaining_zero_exp_cx :
    getTimeRemaining ⟨some 0, none, none⟩ 1 = "No expiration" ∧
    (0 : Int) - 1 ≤ 0 ∧ "No expiration" ≠ "Expired" :=
  ⟨rfl, by decide, by decide⟩

/-- Claim C6, amended: for a payload with a nonzero exp claim,
getTimeRemaining returns Expired when exp minus now is nonpositive and
otherwise buckets the remaining seconds into seconds, minutes, hours
and days exactly as the claim states; an absent or zero exp yields No
expiration. -/
theorem getTimeRemaining_spec (p : JwtPayload) (now : Int) :
    (p.exp = none → getTimeRemaining p now = "No expiration") ∧
    (p.exp = some 0 → getTimeRemaining p now = "No expiration") ∧
    (∀ e, p.exp = some e → e ≠ 0 →
      ((e - now ≤ 0 → getTimeRemaining p now = "Expired") ∧
       (0 < e - now → e - now < 60 →
         getTimeRemaining p now = toString (e - now) ++ " seconds") ∧
       (60 ≤ e - now → e - now < 3600 →
         getTimeRemaining p now = toString ((e - now) / 60) ++ " minutes") ∧
       (3600 ≤ e - now → e - now < 86400 →
         getTimeRemaining p now = toString ((e - now) / 3600) ++ " hours") ∧
       (86400 ≤ e - now →
         getTimeRemaining p now = toString ((e - now) / 86400) ++ " days"))) := by
  refine ⟨fun h => by simp [getTimeRemaining, h],
    fun h => by simp [getTimeRemaining, h], fun e h he => ?_⟩
  refine ⟨fun h1 => ?_, fun h1 h2 => ?_, fun h1 h2 => ?_, fun h1 h2 => ?_,
    fun h1 => ?_⟩ <;>
  · simp only [getTimeRemaining, h]
    rw [if_neg he]
    first
      | rw [if_pos h1]
      | (rw [if_neg (by omega), if_pos (by omega)])
      | (rw [if_neg (by omega), if_neg (by omega), if_pos (by omega)])
      | (rw [if_neg (by omega), if_neg (by omega), if_neg (by omega),
          if_pos (by omega)])
      | (rw [if_neg (by omega), if_neg (by omega), if_neg (by omega),
          if_neg (by omega)])

/-- Witness for the amended claim C6 at concrete payloads covering
every bucket. -/
theorem getTimeRemaining_spec_witness :
    getTimeRemaining ⟨none, none, none⟩ 0 = "No expiration" ∧
    getTimeRemaining ⟨some 0, none, none⟩ 0 = "No expiration" ∧
    getTimeRemaining ⟨some 5, none, none⟩ 9 = "Expired" ∧
    getTimeRemaining ⟨some 30, none, none⟩ 0 = toString ((30 : Int) - 0) ++ " seconds" ∧
    getTimeRemaining ⟨some 300, none, none⟩ 0 = toString (((300 : Int) - 0) / 60) ++ " minutes" ∧
    getTimeRemaining ⟨some 7200, none, none⟩ 0 = toString (((7200 : Int) - 0) / 3600) ++ " hours" ∧
    getTimeRemaining ⟨some 172800, none, none⟩ 0 = toString (((172800 : Int) - 0) / 86400) ++ " days" :=
  ⟨(getTimeRemaining_spec ⟨none, none, none⟩ 0).1 rfl,
   (getTimeRemaining_spec ⟨some 0, none, none⟩ 0).2.1 rfl,
   ((getTimeRemaining_spec ⟨some 5, none, none⟩ 9).2.2 5 rfl (by decide)).1 (by decide),
   ((getTimeRemaining_spec ⟨some 30, none, none⟩ 0).2.2 30 rfl (by decide)).2.1 (by decide) (by decide),
   ((getTimeRemaining_spec ⟨some 300, none, none⟩ 0).2.2 300 rfl (by decide)).2.2.1 (by decide) (by decide),
   ((getTimeRemaining_spec ⟨some 7200, none, none⟩ 0).2.2 7200 rfl (by decide)).2.2.2.1 (by decide) (by decide),
   ((getTimeRemaining_spec ⟨some 172800, none, none⟩ 0).2.2 172800 rfl (by decide)).2.2.2.2 (by decide)⟩

/-- Claim C10: every claim evaluator treats a zero-valued time claim
like an absent one, because the source guards each claim with a
JavaScript falsiness test: isTokenExpired and isTokenNotYetValid return
false, getTimeRemaining returns No expiration, getTokenAge returns
Unknown. -/
theorem zero_time_claims_treated_absent (p : JwtPayload) (now : Int) :
    (p.exp = some 0 → isTokenExpired p now = false) ∧
    (p.nbf = some 0 → isTokenNotYetValid p now = false) ∧
    (p.exp = some 0 → getTimeRemaining p now = "No expiration") ∧
    (p.iat = some 0 → getTokenAge p now = "Unknown") := by
  refine ⟨fun h => ?_, fun h => ?_, fun h => ?_, fun h => ?_⟩ <;>
    simp [isTokenExpired, isTokenNotYetValid, getTimeRemaining, getTokenAge, h]

/-- Witness for claim C10 at concrete payloads. -/
theorem zero_time_claims_treated_absent_witness :
    isTokenExpired ⟨some 0, none, none⟩ 7 = false ∧
    isTokenNotYetValid ⟨none, some 0, none⟩ 7 = false ∧
    getTimeRemaining ⟨some 0, none, none⟩ 7 = "No expiration" ∧
    getTokenAge ⟨none, none, some 0⟩ 7 = "Unknown" :=
  ⟨(zero_time_claims_treated_absent ⟨some 0, none, none⟩ 7).1 rfl,
   (zero_time_claims_treated_absent ⟨none, some 0, none⟩ 7).2.1 rfl,
   (zero_time_claims_treated_absent ⟨some 0, none, none⟩ 7).2.2.1 rfl,
   (zero_time_claims_treated_absent ⟨none, none, some 0⟩ 7).2.2.2 rfl⟩

/-- Claim C4, counterexample: a whitespace-only token is truthy in
JavaScript, so decodeJwt does not report the empty-token error for it;
the single whitespace segment fails the three-segment check instead. -/
theorem decodeJwt_whitespace_cx :
    decodeJwt (cs " ") = ⟨false, none,
      some (cs "Invalid token format. JWT should have three parts separated by dots.")⟩ ∧
    (cs " ").all (fun c => c = ' ') = true ∧
    (decodeJwt (cs " ")).error ≠ some (cs "Token is empty") :=
  ⟨by decide, by decide, by decide⟩

/-- Claim C4, amended: decodeJwt reports the empty-token error exactly
for the empty string; every other input whose split on dots does not
yield exactly three segments, including whitespace-only input, gets the
malformed-format error stating the three-segment dot-separated
requirement. -/
theorem decodeJwt_empty_and_malformed (t : List Char) :
    (decodeJwt [] = ⟨false, none, some (cs "Token is empty")⟩) ∧
    (t ≠ [] → (jsSplit '.' t).length ≠ 3 →
      decodeJwt t = ⟨false, none,
        some (cs "Invalid token format. JWT should have three parts separated by dots.")⟩) := by
  refine ⟨rfl, fun ht h3 => ?_⟩
  unfold decodeJwt
  rw [if_neg ht]
  split
  next p0 p1 p2 heq => rw [heq] at h3; simp at h3
  next => rfl

/-- Witness for the amended claim C4 at concrete inputs. -/
theorem decodeJwt_empty_and_malformed_witness :
    decodeJwt [] = ⟨false, none, some (cs "Token is empty")⟩ ∧
    decodeJwt (cs "ab") = ⟨false, none,
      some (cs "Invalid token format. JWT should have three parts separated by dots.")⟩ :=
  ⟨(decodeJwt_empty_and_malformed []).1,
   (decodeJwt_empty_and_malformed (cs "ab")).2 (by decide) (by decide)⟩

/-- Claim C3, counterexample: encodeJwt called with an algorithm
outside the supported set does not return a discriminated result; the
exception thrown by signJwt propagates out of it, modelled by the error
case of the result. -/
theorem encodeJwt_unsupported_cx :
    encodeJwt testHmac .nil .nil (cs "s") (cs "RS256") =
      .error (cs "Unsupported algorithm: RS256") := by decide

/-- Claim C3, amended: decodeJwt and verifyJwtSignature return
discriminated results for every input, but encodeJwt returns a token
exactly for the four supported algorithms and propagates the
unsupported-algorithm exception of signJwt for every other algorithm
identifier. -/
theorem encodeJwt_ok_iff_supported (H : HmacFamily) (h p : JsonObj)
    (secret alg : List Char) :
    ((∃ t, encodeJwt H h p secret alg = .ok t) ↔
      alg ∈ getSupportedAlgorithms) ∧
    (alg ∉ getSupportedAlgorithms →
      encodeJwt H h p secret alg =
        .error (cs "Unsupported algorithm: " ++ alg)) := by
  by_cases h1 : alg = cs "HS256"
  · subst h1
    simp only [encodeJwt, signJwt, getSupportedAlgorithms]
    simp +decide
  · by_cases h2 : alg = cs "HS384"
    · subst h2
      simp only [encodeJwt, signJwt, getSupportedAlgorithms]
      simp +decide
    · by_cases h3 : alg = cs "HS512"
      · subst h3
        simp only [encodeJwt, signJwt, getSupportedAlgorithms]
        simp +decide
      · by_cases h4 : alg = cs "none"
        · subst h4
          simp only [encodeJwt, signJwt, getSupportedAlgorithms]
          simp +decide
        · simp [encodeJwt, signJwt, getSupportedAlgorithms, h1, h2, h3, h4,
            jsToString]

/-- Witness for the amended claim C3 at a supported and an unsupported
algorithm. -/
theorem encodeJwt_ok_iff_supported_witness :
    (∃ t, encodeJwt testHmac .nil .nil (cs "k") (cs "HS256") = .ok t) ∧
    encodeJwt testHmac .nil .nil (cs "k") (cs "XX") =
      .error (cs "Unsupported algorithm: XX") :=
  ⟨(encodeJwt_ok_iff_supported testHmac .nil .nil (cs "k") (cs "HS256")).1.mpr
    (by decide),
   (encodeJwt_ok_iff_supported testHmac .nil .nil (cs "k") (cs "XX")).2
    (by decide)⟩

/-- Reading back the key just set returns the new value. -/
theorem objGet_objSet_same :
    ∀ (o : JsonObj) (k : List Char) (v : Json),
      objGet (objSet o k v) k = some v
  | .nil, k, v => by simp [objSet, objGet]
  | .cons k2 v2 tl, k, v => by
    by_cases hk : k2 = k <;>
      simp [objSet, objGet, hk, objGet_objSet_same tl k v]

/-- Setting one key leaves lookups of a different key unchanged. -/
theorem objGet_objSet_diff :
    ∀ (o : JsonObj) (k k2 : List Char) (v : Json), k ≠ k2 →
      objGet (objSet o k v) k2 = objGet o k2
  | .nil, k, k2, v, h => by simp [objSet, objGet, h]
  | .cons kc vc tl, k, k2, v, h => by
    by_cases hk : kc = k
    · subst hk
      simp [objSet, objGet, h]
    · by_cases hk2 : kc = k2 <;>
        simp [objSet, objGet, hk, hk2, Ne.symm h,
          objGet_objSet_diff tl k k2 v h]

/-- Claim C7, counterexample: a caller-supplied empty-string typ is
falsy, so the normalized header replaces it with JWT instead of
preserving it as the claim states. -/
theorem encodeJwtFullHeader_empty_typ_cx :
    objGet (encodeJwtFullHeader (.cons (cs "typ") (.str []) .nil)
        (cs "HS256")) (cs "typ") = some (.str (cs "JWT")) ∧
    objGet (.cons (cs "typ") (Json.str []) .nil : JsonObj) (cs "typ") =
      some (.str []) ∧
    Json.str (cs "JWT") ≠ .str [] :=
  ⟨by decide, by decide, by decide⟩

/-- Claim C7, amended: the header encoded into the token has its alg
field forced to the algorithm argument; typ is preserved when the
caller supplied a truthy typ and set to JWT when typ is absent or
falsy, such as the empty string. -/
theorem encodeJwtFullHeader_spec (h : JsonObj) (alg : List Char) :
    objGet (encodeJwtFullHeader h alg) (cs "alg") = some (.str alg) ∧
    (objGet h (cs "typ") = none →
      objGet (encodeJwtFullHeader h alg) (cs "typ") =
        some (.str (cs "JWT"))) ∧
    (∀ v, objGet h (cs "typ") = some v → jsTruthy v = true →
      objGet (encodeJwtFullHeader h alg) (cs "typ") = some v) ∧
    (∀ v, objGet h (cs "typ") = some v → jsTruthy v = false →
      objGet (encodeJwtFullHeader h alg) (cs "typ") =
        some (.str (cs "JWT"))) := by
  have hne : (cs "typ") ≠ (cs "alg") := by decide
  refine ⟨?_, fun ht => ?_, fun v ht hv => ?_, fun v ht hv => ?_⟩ <;>
    unfold encodeJwtFullHeader
  · rw [objGet_objSet_diff _ _ _ _ hne, objGet_objSet_same]
  · rw [ht, objGet_objSet_same]
  · rw [ht, objGet_objSet_same]
    simp [hv]
  · rw [ht, objGet_objSet_same]
    simp [hv]

/-- Witness for the amended claim C7 at concrete headers. -/
theorem encodeJwtFullHeader_spec_witness :
    objGet (encodeJwtFullHeader .nil (cs "HS256")) (cs "alg") =
      some (.str (cs "HS256")) ∧
    objGet (encodeJwtFullHeader .nil (cs "HS256")) (cs "typ") =
      some (.str (cs "JWT")) ∧
    objGet (encodeJwtFullHeader (.cons (cs "typ") (.str (cs "x")) .nil)
        (cs "HS256")) (cs "typ") = some (.str (cs "x")) ∧
    objGet (encodeJwtFullHeader (.cons (cs "typ") (.str []) .nil)
        (cs "HS384")) (cs "typ") = some (.str (cs "JWT")) :=
  ⟨(encodeJwtFullHeader_spec .nil (cs "HS256")).1,
   (encodeJwtFullHeader_spec .nil (cs "HS256")).2.1 rfl,
   (encodeJwtFullHeader_spec (.cons (cs "typ") (.str (cs "x")) .nil)
     (cs "HS256")).2.2.1 (.str (cs "x")) rfl (by decide),
   (encodeJwtFullHeader_spec (.cons (cs "typ") (.str []) .nil)
     (cs "HS384")).2.2.2 (.str []) rfl (by decide)⟩

/-- Splitting input free of the separator yields one piece. -/
theorem jsSplitAux_not_mem (sep : Char) :
    ∀ (a acc : List Char), sep ∉ a →
      jsSplitAux sep a acc = [acc.reverse ++ a]
  | [], acc, _ => by simp [jsSplitAux]
  | c :: t, acc, h => by
    have hc : ¬c = sep := fun he => h (he ▸ List.mem_cons_self c t)
    have ht : sep ∉ t := fun he => h (List.mem_cons_of_mem c he)
    simp [jsSplitAux, hc, jsSplitAux_not_mem sep t (c :: acc) ht]

/-- Splitting peels off the piece before the first separator. -/
theorem jsSplitAux_sep_append (sep : Char) :
    ∀ (a acc rest : List Char), sep ∉ a →
      jsSplitAux sep (a ++ sep :: rest) acc =
        (acc.reverse ++ a) :: jsSplitAux sep rest []
  | [], acc, rest, _ => by simp [jsSplitAux]
  | c :: t, acc, rest, h => by
    have hc : ¬c = sep := fun he => h (he ▸ List.mem_cons_self c t)
    have ht : sep ∉ t := fun he => h (List.mem_cons_of_mem c he)
    simp [jsSplitAux, hc, jsSplitAux_sep_append sep t (c :: acc) rest ht]

/-- Splitting a dotted three-segment string whose segments are free of
dots recovers exactly the three segments. -/
theorem jsSplit_three (p0 p1 p2 : List Char)
    (h0 : '.' ∉ p0) (h1 : '.' ∉ p1) (h2 : '.' ∉ p2) :
    jsSplit '.' (p0 ++ '.' :: (p1 ++ '.' :: p2)) = [p0, p1, p2] := by
  unfold jsSplit
  rw [jsSplitAux_sep_append '.' p0 [] _ h0,
    jsSplitAux_sep_append '.' p1 [] _ h1, jsSplitAux_not_mem '.' p2 [] h2]
  simp

/-- A dotted token is never the empty string. -/
theorem append_cons_ne_nil (a b : List Char) (c : Char) :
    a ++ c :: b ≠ [] := by
  cases a <;> simp

/-- Behavior of the verifier on a well-split token whose header
segment yields a truthy algorithm and whose signing succeeds: the
result is decided purely by string equality of the third segment with
the recomputed signature. -/
theorem verify_parts (H : HmacFamily) (p0 p1 sig secret : List Char)
    (hsec : secret ≠ [])
    (h0 : '.' ∉ p0) (h1 : '.' ∉ p1) (h2 : '.' ∉ sig)
    (hb : List Nat) (hatob : atob p0 = some hb)
    (hdr : Json) (hparse : jsonParse (binaryOf hb) = some hdr)
    (a : Json) (halg : jsGetMem hdr (cs "alg") = some a)
    (htruthy : jsTruthy a = true)
    (expected : List Char)
    (hsign : signJwt H (p0 ++ '.' :: p1) secret a = .ok expected) :
    verifyJwtSignature H (p0 ++ '.' :: (p1 ++ '.' :: sig)) secret =
      if sig = expected then ⟨true, none⟩
      else ⟨false, some (cs "Signature verification failed")⟩ := by
  unfold verifyJwtSignature
  rw [if_neg (by simp [append_cons_ne_nil, hsec])]
  rw [jsSplit_three p0 p1 sig h0 h1 h2]
  simp only [hatob, hparse, halg, htruthy, hsign]
  simp

/-- Claim C9: for a three-segment token whose header segment decodes
and parses to a JSON object with a truthy alg, verifyJwtSignature never
decodes or parses the payload segment: whenever the third segment
equals the signature recomputed over the raw header and payload
segments, the result is valid — for every payload segment, including
ones that are not valid base64 or JSON. -/
theorem verify_never_parses_payload (H : HmacFamily)
    (p0 p1 sig secret : List Char) (hsec : secret ≠ [])
    (h0 : '.' ∉ p0) (h1 : '.' ∉ p1) (h2 : '.' ∉ sig)
    (hb : List Nat) (hatob : atob p0 = some hb)
    (m : JsonObj) (hparse : jsonParse (binaryOf hb) = some (.obj m))
    (a : Json) (halg : objGet m (cs "alg") = some a)
    (htruthy : jsTruthy a = true)
    (expected : List Char)
    (hsign : signJwt H (p0 ++ '.' :: p1) secret a = .ok expected)
    (heq : sig = expected) :
    verifyJwtSignature H (p0 ++ '.' :: (p1 ++ '.' :: sig)) secret =
      ⟨true, none⟩ := by
  rw [verify_parts H p0 p1 sig secret hsec h0 h1 h2 hb hatob (.obj m) hparse
    a (by simpa [jsGetMem] using halg) htruthy expected hsign, if_pos heq]

/-- Witness for claim C9: a token whose payload segment is not base64
at all still verifies when the signature matches; the algorithm is
none, whose recomputed signature is the empty string. -/
theorem verify_never_parses_payload_witness :
    verifyJwtSignature testHmac
      (cs "eyJhbGciOiJub25lIiwidHlwIjoiSldUIn0" ++ '.' ::
        (cs "!!" ++ '.' :: [])) (cs "k") = ⟨true, none⟩ ∧
    atob (cs "!!") = none :=
  ⟨verify_never_parses_payload testHmac
    (cs "eyJhbGciOiJub25lIiwidHlwIjoiSldUIn0") (cs "!!") [] (cs "k")
    (by decide) (by decide) (by decide) (by decide)
    (utf8Encode (cs "\x7b\"alg\":\"none\",\"typ\":\"JWT\"\x7d")) (by decide)
    (.cons (cs "alg") (.str (cs "none"))
      (.cons (cs "typ") (.str (cs "JWT")) .nil)) (by decide)
    (.str (cs "none")) (by decide) (by decide) [] (by decide) rfl,
   by decide⟩

/-- Claim C8: verifyJwtSignature performs its checks in order with the
stated messages, short-circuiting at the first failure: missing token
or secret, then segment count, then algorithm presence, then signature
comparison; an exception thrown while recomputing the signature is
caught and surfaced as the error message; and in every result the error
field is present exactly when the validity flag is false. -/
theorem verify_checks_in_order (H : HmacFamily) (token secret : List Char) :
    ((token = [] ∨ secret = []) →
      verifyJwtSignature H token secret =
        ⟨false, some (cs "Token and secret are required")⟩) ∧
    (token ≠ [] → secret ≠ [] → (jsSplit '.' token).length ≠ 3 →
      verifyJwtSignature H token secret =
        ⟨false, some (cs "Invalid token format")⟩) ∧
    (∀ p0 p1 p2 hb m, token ≠ [] → secret ≠ [] →
      jsSplit '.' token = [p0, p1, p2] →
      atob p0 = some hb → jsonParse (binaryOf hb) = some (.obj m) →
      objGet m (cs "alg") = none →
      verifyJwtSignature H token secret =
        ⟨false, some (cs "No algorithm specified in header")⟩) ∧
    (∀ p0 p1 p2 hb hdr a expected, token ≠ [] → secret ≠ [] →
      jsSplit '.' token = [p0, p1, p2] →
      atob p0 = some hb → jsonParse (binaryOf hb) = some hdr →
      jsGetMem hdr (cs "alg") = some a → jsTruthy a = true →
      signJwt H (p0 ++ '.' :: p1) secret a = .ok expected → p2 ≠ expected →
      verifyJwtSignature H token secret =
        ⟨false, some (cs "Signature verification failed")⟩) ∧
    (∀ p0 p1 p2 hb hdr a msg, token ≠ [] → secret ≠ [] →
      jsSplit '.' token = [p0, p1, p2] →
      atob p0 = some hb → jsonParse (binaryOf hb) = some hdr →
      jsGetMem hdr (cs "alg") = some a → jsTruthy a = true →
      signJwt H (p0 ++ '.' :: p1) secret a = .error msg →
      verifyJwtSignature H token secret = ⟨false, some msg⟩) ∧
    ((verifyJwtSignature H token secret).error.isSome =
      !(verifyJwtSignature H token secret).isValid) := by
  refine ⟨fun h => ?_, fun ht hs h3 => ?_, fun p0 p1 p2 hb m ht hs hsp ha hp hal => ?_,
    fun p0 p1 p2 hb hdr a expected ht hs hsp ha hp hal htr hsig hne => ?_,
    fun p0 p1 p2 hb hdr a msg ht hs hsp ha hp hal htr hsig => ?_, ?_⟩
  · rcases h with h | h <;> simp [verifyJwtSignature, h]
  · unfold verifyJwtSignature
    rw [if_neg (by simp [ht, hs])]
    split
    next q0 q1 q2 heq => rw [heq] at h3; simp at h3
    next => rfl
  · unfold verifyJwtSignature
    rw [if_neg (by simp [ht, hs])]
    rw [hsp]
    simp only [ha, hp, jsGetMem, hal]
  · unfold verifyJwtSignature
    rw [if_neg (by simp [ht, hs])]
    rw [hsp]
    simp only [ha, hp, hal, htr, hsig]
    simp [hne]
  · unfold verifyJwtSignature
    rw [if_neg (by simp [ht, hs])]
    rw [hsp]
    simp only [ha, hp, hal, htr, hsig]
    simp
  · unfold verifyJwtSignature
    repeat' split
    all_goals rfl

/-- Witness for claim C8: concrete tokens exercising each check of the
verifier in turn — missing inputs, malformed format, missing algorithm,
signature mismatch, and a caught unsupported-algorithm exception. -/
theorem verify_checks_in_order_witness :
    verifyJwtSignature testHmac [] (cs "k") =
      ⟨false, some (cs "Token and secret are required")⟩ ∧
    verifyJwtSignature testHmac (cs "ab") (cs "k") =
      ⟨false, some (cs "Invalid token format")⟩ ∧
    verifyJwtSignature testHmac (cs "e30.e30.x") (cs "k") =
      ⟨false, some (cs "No algorithm specified in header")⟩ ∧
    verifyJwtSignature testHmac
      (cs "eyJhbGciOiJIUzI1NiIsInR5cCI6IkpXVCJ9.e30.x") (cs "k") =
      ⟨false, some (cs "Signature verification failed")⟩ ∧
    verifyJwtSignature testHmac (cs "eyJhbGciOiJSUzI1NiJ9.e30.x") (cs "k") =
      ⟨false, some (cs "Unsupported algorithm: RS256")⟩ :=
  ⟨(verify_checks_in_order testHmac [] (cs "k")).1 (.inl rfl),
   (verify_checks_in_order testHmac (cs "ab") (cs "k")).2.1
     (by decide) (by decide) (by decide),
   (verify_checks_in_order testHmac (cs "e30.e30.x") (cs "k")).2.2.1
     (cs "e30") (cs "e30") (cs "x") (utf8Encode (cs "{}")) .nil
     (by decide) (by decide) (by decide) (by decide) (by decide) rfl,
   (verify_checks_in_order testHmac
       (cs "eyJhbGciOiJIUzI1NiIsInR5cCI6IkpXVCJ9.e30.x") (cs "k")).2.2.2.1
     (cs "eyJhbGciOiJIUzI1NiIsInR5cCI6IkpXVCJ9") (cs "e30") (cs "x")
     (utf8Encode (cs "\x7b\"alg\":\"HS256\",\"typ\":\"JWT\"\x7d"))
     (.obj (.cons (cs "alg") (.str (cs "HS256"))
       (.cons (cs "typ") (.str (cs "JWT")) .nil)))
     (.str (cs "HS256"))
     (toBase64Url (btoaChars (testHmac.hs256
       (cs "eyJhbGciOiJIUzI1NiIsInR5cCI6IkpXVCJ9" ++ '.' :: cs "e30")
       (cs "k"))))
     (by decide) (by decide) (by decide) (by decide) (by decide) (by decide)
     (by decide) (by decide) (by decide),
   (verify_checks_in_order testHmac (cs "eyJhbGciOiJSUzI1NiJ9.e30.x")
       (cs "k")).2.2.2.2.1
     (cs "eyJhbGciOiJSUzI1NiJ9") (cs "e30") (cs "x")
     (utf8Encode (cs "\x7b\"alg\":\"RS256\"\x7d"))
     (.obj (.cons (cs "alg") (.str (cs "RS256")) .nil))
     (.str (cs "RS256")) (cs "Unsupported algorithm: RS256")
     (by decide) (by decide) (by decide) (by decide) (by decide) (by decide)
     (by decide) (by decide)⟩

/-- Induction principle following the three-byte chunking of base64. -/
theorem chunk3_induction (motive : List Nat → Prop) (h0 : motive [])
    (h1 : ∀ a, motive [a]) (h2 : ∀ a b, motive [a, b])
    (h3 : ∀ a b c rest, motive rest → motive (a :: b :: c :: rest)) :
    ∀ l, motive l
  | [] => h0
  | [a] => h1 a
  | [a, b] => h2 a b
  | a :: b :: c :: rest =>
    h3 a b c rest (chunk3_induction motive h0 h1 h2 h3 rest)

/-- Alphabet characters recover their index. -/
theorem b64Index_b64Char : ∀ v, v < 64 → b64Index (b64Char v) = some v := by
  decide

/-- Alphabet characters are not base64 whitespace. -/
theorem b64Char_not_ws : ∀ v, v < 64 → isB64Ws (b64Char v) = false := by
  decide

/-- Alphabet characters are not the padding character. -/
theorem b64Char_ne_pad : ∀ v, v < 64 → b64Char v ≠ '=' := by decide

/-- Alphabet characters below index sixty-two are neither plus nor
slash, so base64url conversion leaves them unchanged. -/
theorem b64Char_lt62_plain :
    ∀ v, v < 62 → b64Char v ≠ '+' ∧ b64Char v ≠ '/' := by decide

/-- Every character produced by b64Char lies in the alphabet, the
out-of-range default included. -/
theorem b64Char_mem_alphabet (v : Nat) : b64Char v ∈ b64Alphabet := by
  by_cases h : v < 64
  · revert h
    revert v
    decide
  · unfold b64Char
    rw [List.getD_eq_default]
    · decide
    · have : b64Alphabet.length = 64 := by decide
      omega

/-- Six-bit groups of a byte sequence are below sixty-four. -/
theorem sixbits_lt64 :
    ∀ bytes, (∀ b ∈ bytes, b < 256) → ∀ v ∈ sixbits bytes, v < 64 := by
  intro bytes
  induction bytes using chunk3_induction with
  | h0 => intro _ v hv; simp [sixbits] at hv
  | h1 a =>
    intro hb v hv
    have ha := hb a (by simp)
    simp [sixbits] at hv
    rcases hv with h | h <;> omega
  | h2 a b =>
    intro hb v hv
    have ha := hb a (by simp)
    have hbb := hb b (by simp)
    simp [sixbits] at hv
    rcases hv with h | h | h <;> omega
  | h3 a b c rest ih =>
    intro hb v hv
    have ha := hb a (by simp)
    have hbb := hb b (by simp)
    have hc := hb c (by simp)
    simp only [sixbits, List.mem_cons] at hv
    rcases hv with h | h | h | h | h
    · omega
    · omega
    · omega
    · omega
    · exact ih (fun x hx => hb x (by simp [hx])) v h

/-- Every six-bit group appears in the padded base64 rendering through
its alphabet character. -/
theorem mem_btoa_of_mem_sixbits :
    ∀ bytes v, v ∈ sixbits bytes → b64Char v ∈ btoaChars bytes := by
  intro bytes
  induction bytes using chunk3_induction with
  | h0 => intro v hv; simp [sixbits] at hv
  | h1 a => intro v hv; simp [sixbits] at hv; simp [btoaChars]; tauto
  | h2 a b => intro v hv; simp [sixbits] at hv; simp [btoaChars]; tauto
  | h3 a b c rest ih =>
    intro v hv
    simp only [sixbits, List.mem_cons] at hv
    simp only [btoaChars, List.mem_cons]
    rcases hv with h | h | h | h | h
    · tauto
    · tauto
    · tauto
    · tauto
    · exact .inr (.inr (.inr (.inr (ih v h))))

/-- Conversion of a non-special character for base64url is the
identity. -/
theorem urlRep_plain (c : Char) (h1 : c ≠ '+') (h2 : c ≠ '/')
    (h3 : c ≠ '=') : urlRep c = some c := by
  simp [urlRep, h1, h2, h3]

/-- When every six-bit group is below sixty-two, the base64url
conversion of the padded rendering just drops the padding. -/
theorem toBase64Url_btoa :
    ∀ bytes, (∀ v ∈ sixbits bytes, v < 62) →
      toBase64Url (btoaChars bytes) = (sixbits bytes).map b64Char := by
  intro bytes
  induction bytes using chunk3_induction with
  | h0 => intro _; simp [btoaChars, sixbits, toBase64Url]
  | h1 a =>
    intro hv
    have h1 := hv (a / 4) (by simp [sixbits])
    have h2 := hv (a % 4 * 16) (by simp [sixbits])
    have p1 := b64Char_lt62_plain _ h1
    have p2 := b64Char_lt62_plain _ h2
    simp [btoaChars, sixbits, toBase64Url, List.filterMap_cons,
      urlRep_plain _ p1.1 p1.2 (b64Char_ne_pad _ (by omega)),
      urlRep_plain _ p2.1 p2.2 (b64Char_ne_pad _ (by omega)),
      (by decide : urlRep '=' = none)]
  | h2 a b =>
    intro hv
    have h1 := hv (a / 4) (by simp [sixbits])
    have h2 := hv (a % 4 * 16 + b / 16) (by simp [sixbits])
    have h3 := hv (b % 16 * 4) (by simp [sixbits])
    have p1 := b64Char_lt62_plain _ h1
    have p2 := b64Char_lt62_plain _ h2
    have p3 := b64Char_lt62_plain _ h3
    simp [btoaChars, sixbits, toBase64Url, List.filterMap_cons,
      urlRep_plain _ p1.1 p1.2 (b64Char_ne_pad _ (by omega)),
      urlRep_plain _ p2.1 p2.2 (b64Char_ne_pad _ (by omega)),
      urlRep_plain _ p3.1 p3.2 (b64Char_ne_pad _ (by omega)),
      (by decide : urlRep '=' = none)]
  | h3 a b c rest ih =>
    intro hv
    have h1 := hv (a / 4) (by simp [sixbits])
    have h2 := hv (a % 4 * 16 + b / 16) (by simp [sixbits])
    have h3 := hv (b % 16 * 4 + c / 64) (by simp [sixbits])
    have h4 := hv (c % 64) (by simp [sixbits])
    have p1 := b64Char_lt62_plain _ h1
    have p2 := b64Char_lt62_plain _ h2
    have p3 := b64Char_lt62_plain _ h3
    have p4 := b64Char_lt62_plain _ h4
    have ihr := ih (fun v hv2 => hv v (by simp [sixbits, hv2]))
    simp only [btoaChars, sixbits, toBase64Url, List.filterMap_cons,
      List.map_cons] at ihr ⊢
    rw [urlRep_plain _ p1.1 p1.2 (b64Char_ne_pad _ (by omega)),
      urlRep_plain _ p2.1 p2.2 (b64Char_ne_pad _ (by omega)),
      urlRep_plain _ p3.1 p3.2 (b64Char_ne_pad _ (by omega)),
      urlRep_plain _ p4.1 p4.2 (b64Char_ne_pad _ (by omega)), ihr]

/-- Padding strip is the identity on input without padding characters. -/
theorem stripPad_no_pad (l : List Char) (h : '=' ∉ l) : stripPad l = l := by
  unfold stripPad
  split
  next r heq =>
    exact absurd (by rw [← List.mem_reverse, heq]; simp) h
  next r hside heq =>
    exact absurd (by rw [← List.mem_reverse, heq]; simp) h
  next => rfl

/-- Mapping alphabet characters back through the index table recovers
the six-bit values. -/
theorem mapB64_map_b64Char :
    ∀ vs, (∀ v ∈ vs, v < 64) → mapB64 (vs.map b64Char) = some vs := by
  intro vs
  induction vs with
  | nil => intro _; simp [mapB64]
  | cons v tl ih =>
    intro hv
    simp only [List.map_cons, mapB64,
      b64Index_b64Char v (hv v (by simp)),
      ih (fun x hx => hv x (by simp [hx]))]

/-- The number of six-bit groups is never one modulo four. -/
theorem sixbits_len_mod4 : ∀ bytes, (sixbits bytes).length % 4 ≠ 1 := by
  intro bytes
  induction bytes using chunk3_induction with
  | h0 => simp [sixbits]
  | h1 a => simp [sixbits]
  | h2 a b => simp [sixbits]
  | h3 a b c rest ih =>
    simp only [sixbits, List.length_cons]
    omega

/-- Reassembling the six-bit groups of a byte sequence recovers the
bytes. -/
theorem decode6_sixbits :
    ∀ bytes, (∀ b ∈ bytes, b < 256) → decode6 (sixbits bytes) = bytes := by
  intro bytes
  induction bytes using chunk3_induction with
  | h0 => intro _; simp [sixbits, decode6]
  | h1 a =>
    intro hb
    have ha := hb a (by simp)
    simp only [sixbits, decode6]
    congr 1
    omega
  | h2 a b =>
    intro hb
    have ha := hb a (by simp)
    have hbb := hb b (by simp)
    simp only [sixbits, decode6]
    congr 1
    · omega
    · congr 1
      omega
  | h3 a b c rest ih =>
    intro hb
    have ha := hb a (by simp)
    have hbb := hb b (by simp)
    have hc := hb c (by simp)
    have ihr := ih (fun x hx => hb x (by simp [hx]))
    simp only [sixbits, decode6, ihr]
    congr 1
    · omega
    · congr 1
      · omega
      · congr 1
        omega

/-- Forgiving decode of mapped alphabet characters reassembles the
six-bit groups. -/
theorem atob_of_map (vs : List Nat) (hv : ∀ v ∈ vs, v < 64)
    (hlen : vs.length % 4 ≠ 1) :
    atob (vs.map b64Char) = some (decode6 vs) := by
  unfold atob
  have hfilter : (vs.map b64Char).filter (fun c => !(isB64Ws c)) =
      vs.map b64Char := by
    rw [List.filter_eq_self]
    intro c hc
    rcases List.mem_map.mp hc with ⟨v, hvm, rfl⟩
    simp [b64Char_not_ws v (hv v hvm)]
  have hnopad : '=' ∉ vs.map b64Char := by
    intro hc
    rcases List.mem_map.mp hc with ⟨v, hvm, hbc⟩
    exact b64Char_ne_pad v (hv v hvm) hbc
  have hif : (if (vs.map b64Char).length % 4 = 0
      then stripPad (vs.map b64Char) else vs.map b64Char) = vs.map b64Char := by
    split <;> simp [stripPad_no_pad _ hnopad]
  simp only [hfilter, hif]
  rw [if_neg (by simpa using hlen)]
  rw [mapB64_map_b64Char vs hv]

/-- Round trip of the base64url pipeline: when the padded base64
rendering of a byte sequence contains no plus and no slash, decoding
its base64url form with the forgiving atob recovers the bytes. -/
theorem atob_toBase64Url_btoa (bytes : List Nat)
    (hb : ∀ b ∈ bytes, b < 256) (hv : ∀ v ∈ sixbits bytes, v < 62) :
    atob (toBase64Url (btoaChars bytes)) = some bytes := by
  rw [toBase64Url_btoa bytes hv,
    atob_of_map (sixbits bytes) (fun v hvm => sixbits_lt64 bytes hb v hvm)
      (sixbits_len_mod4 bytes),
    decode6_sixbits bytes hb]

/-- Absence of minus and underscore in the base64url form forces every
six-bit group below sixty-two. -/
theorem sixbits_lt62_of_no_url (bytes : List Nat)
    (hb : ∀ b ∈ bytes, b < 256)
    (hdash : '-' ∉ toBase64Url (btoaChars bytes))
    (hus : '_' ∉ toBase64Url (btoaChars bytes)) :
    ∀ v ∈ sixbits bytes, v < 62 := by
  intro v hv
  by_contra hge
  have h64 := sixbits_lt64 bytes hb v hv
  have hmem := mem_btoa_of_mem_sixbits bytes v hv
  interval_cases v
  · exact hdash (List.mem_filterMap.mpr ⟨'+', by simpa using hmem, by decide⟩)
  · exact hus (List.mem_filterMap.mpr ⟨'/', by simpa using hmem, by decide⟩)

/-- UTF-8 encoding of an ASCII string is its character codes. -/
theorem utf8_ascii : ∀ s, allAscii s = true → utf8Encode s = s.map Char.toNat
  | [], _ => rfl
  | c :: rest, h => by
    have h2 := h
    simp only [allAscii, List.all_cons, Bool.and_eq_true,
      decide_eq_true_eq] at h2
    simp [utf8Encode, utf8Char, h2.1, utf8_ascii rest h2.2]

/-- Character codes of an ASCII string are bytes. -/
theorem utf8_ascii_lt256 (s : List Char) (h : allAscii s = true) :
    ∀ b ∈ utf8Encode s, b < 256 := by
  rw [utf8_ascii s h]
  intro b hb
  rcases List.mem_map.mp hb with ⟨c, hc, rfl⟩
  have := (List.all_eq_true.mp h) c hc
  simp at this
  omega

/-- Rebuilding the binary string from the character codes of a string
recovers the string. -/
theorem binaryOf_map_toNat (s : List Char) :
    binaryOf (s.map Char.toNat) = s := by
  unfold binaryOf
  rw [List.map_map]
  exact List.map_id'' (fun c => Char.ofNat_toNat c) s

/-- Characters of the padded base64 rendering are padding or alphabet
characters. -/
theorem mem_btoa :
    ∀ bytes c, c ∈ btoaChars bytes → c = '=' ∨ c ∈ b64Alphabet := by
  intro bytes
  induction bytes using chunk3_induction with
  | h0 => intro c hc; simp [btoaChars] at hc
  | h1 a =>
    intro c hc
    simp only [btoaChars, List.mem_cons, List.not_mem_nil, or_false] at hc
    rcases hc with h | h | hc2
    · exact .inr (h ▸ b64Char_mem_alphabet _)
    · exact .inr (h ▸ b64Char_mem_alphabet _)
    · rcases hc2 with h | h
      · exact .inl h
      · exact .inl h
  | h2 a b =>
    intro c hc
    simp only [btoaChars, List.mem_cons, List.not_mem_nil, or_false] at hc
    rcases hc with h | h | h | h
    · exact .inr (h ▸ b64Char_mem_alphabet _)
    · exact .inr (h ▸ b64Char_mem_alphabet _)
    · exact .inr (h ▸ b64Char_mem_alphabet _)
    · exact .inl h
  | h3 a b c rest ih =>
    intro x hx
    simp only [btoaChars, List.mem_cons] at hx
    rcases hx with h | h | h | h | h
    · exact .inr (h ▸ b64Char_mem_alphabet _)
    · exact .inr (h ▸ b64Char_mem_alphabet _)
    · exact .inr (h ▸ b64Char_mem_alphabet _)
    · exact .inr (h ▸ b64Char_mem_alphabet _)
    · exact ih x h

/-- The base64url form of a padded base64 rendering never contains a
dot, so tokens split cleanly on dots around it. -/
theorem toBase64Url_no_dot (bytes : List Nat) :
    '.' ∉ toBase64Url (btoaChars bytes) := by
  intro hdot
  rcases List.mem_filterMap.mp hdot with ⟨a, ha, hrep⟩
  rcases mem_btoa bytes a ha with rfl | hmem
  · simp [urlRep] at hrep
  · by_cases h1 : a = '+'
    · subst h1; exact absurd hrep (by decide)
    · by_cases h2 : a = '/'
      · subst h2; exact absurd hrep (by decide)
      · by_cases h3 : a = '='
        · subst h3; exact absurd hrep (by decide)
        · have : a = '.' := by
            simpa [urlRep, h1, h2, h3] using hrep
          subst this
          revert hmem
          decide

/-- Digit rendering does not depend on the fuel once it is adequate. -/
theorem natDigitsAux_stable :
    ∀ f g n, n < f → n < g → natDigitsAux f n = natDigitsAux g n := by
  intro f
  induction f with
  | zero => intro g n hf; omega
  | succ f ih =>
    intro g n hf hg
    cases g with
    | zero => omega
    | succ g =>
      by_cases h10 : n < 10
      · simp [natDigitsAux, h10]
      · have hdiv : n / 10 < n := Nat.div_lt_self (by omega) (by omega)
        simp only [natDigitsAux, if_neg h10]
        rw [ih g (n / 10) (by omega) (by omega)]

/-- Single-digit rendering. -/
theorem natDigits_small (n : Nat) (h : n < 10) :
    natDigits n = [digitChar n] := by
  simp [natDigits, natDigitsAux, h]

/-- Multi-digit rendering peels off the last digit. -/
theorem natDigits_unfold (n : Nat) (h : 10 ≤ n) :
    natDigits n = natDigits (n / 10) ++ [digitChar (n % 10)] := by
  have hdiv : n / 10 < n := Nat.div_lt_self (by omega) (by omega)
  unfold natDigits
  conv =>
    lhs
    rw [natDigitsAux]
  rw [if_neg (by omega)]
  rw [natDigitsAux_stable n (n / 10 + 1) (n / 10) (by omega) (by omega)]

/-- Decimal renderings are never empty. -/
theorem natDigits_ne_nil (n : Nat) : natDigits n ≠ [] := by
  by_cases h : n < 10
  · simp [natDigits_small n h]
  · simp [natDigits_unfold n (by omega)]

/-- Characters of a digit character are digits. -/
theorem isDigit_digitChar : ∀ d, d < 10 → isDigit (digitChar d) = true := by
  decide

/-- Digit characters carry their value. -/
theorem digitVal_digitChar : ∀ d, d < 10 → digitVal (digitChar d) = d := by
  decide

/-- Every character of a decimal rendering is a digit. -/
theorem natDigits_all_digits (n : Nat) :
    ∀ c ∈ natDigits n, isDigit c = true := by
  induction n using Nat.strong_induction_on with
  | _ n ih =>
    by_cases h : n < 10
    · rw [natDigits_small n h]
      intro c hc
      simp at hc
      exact hc ▸ isDigit_digitChar n h
    · rw [natDigits_unfold n (by omega)]
      intro c hc
      rcases List.mem_append.mp hc with hl | hr
      · exact ih (n / 10) (Nat.div_lt_self (by omega) (by omega)) c hl
      · simp at hr
        exact hr ▸ isDigit_digitChar (n % 10) (by omega)

/-- Digit runs parse by folding the digit values from the left. -/
theorem parseDigits_append :
    ∀ (ds rest : List Char) (acc : Nat), (∀ c ∈ ds, isDigit c = true) →
      headIsDigit rest = false →
      parseDigits (ds ++ rest) acc =
        (List.foldl (fun a c => a * 10 + digitVal c) acc ds, rest) := by
  intro ds
  induction ds with
  | nil =>
    intro rest acc _ hrest
    cases rest with
    | nil => simp [parseDigits]
    | cons c t =>
      simp [headIsDigit] at hrest
      simp [parseDigits, hrest]
  | cons d ds ih =>
    intro rest acc hds hrest
    have hd := hds d (by simp)
    simp only [List.cons_append, parseDigits, hd, if_pos, List.foldl_cons]
    exact ih rest (acc * 10 + digitVal d) (fun c hc => hds c (by simp [hc]))
      hrest

/-- Folding the digits of a decimal rendering onto an accumulator. -/
theorem natDigits_foldl (n : Nat) :
    ∀ acc, List.foldl (fun a c => a * 10 + digitVal c) acc (natDigits n) =
      acc * 10 ^ (natDigits n).length + n := by
  induction n using Nat.strong_induction_on with
  | _ n ih =>
    intro acc
    by_cases h : n < 10
    · rw [natDigits_small n h]
      simp [digitVal_digitChar n h]
    · rw [natDigits_unfold n (by omega)]
      rw [List.foldl_append]
      rw [ih (n / 10) (Nat.div_lt_self (by omega) (by omega)) acc]
      simp only [List.foldl_cons, List.foldl_nil, List.length_append,
        List.length_cons, List.length_nil]
      rw [digitVal_digitChar (n % 10) (by omega)]
      rw [pow_succ]
      have hmod := Nat.div_add_mod n 10
      ring_nf
      omega

/-- A decimal rendering followed by a non-digit parses back to the
rendered number through the number parser core. -/
theorem natDigits_parse_core (n : Nat) (rest : List Char)
    (hrest : headIsDigit rest = false) :
    ∃ c ds, natDigits n = c :: ds ∧ isDigit c = true ∧
      parseDigits (ds ++ rest) (digitVal c) = (n, rest) := by
  rcases hshape : natDigits n with _ | ⟨c, ds⟩
  · exact absurd hshape (natDigits_ne_nil n)
  · refine ⟨c, ds, rfl, natDigits_all_digits n c (by rw [hshape]; simp), ?_⟩
    have hds : ∀ x ∈ ds, isDigit x = true := fun x hx =>
      natDigits_all_digits n x (by rw [hshape]; simp [hx])
    rw [parseDigits_append ds rest (digitVal c) hds hrest]
    have hfold := natDigits_foldl n 0
    rw [hshape] at hfold
    simp only [List.foldl_cons, Nat.zero_mul, Nat.zero_add] at hfold
    rw [hfold]

/-- Digit characters are not the minus sign. -/
theorem isDigit_ne_minus (c : Char) (h : isDigit c = true) : c ≠ '-' := by
  intro he
  subst he
  exact absurd h (by decide)

/-- The integral rendering of a number followed by a non-digit parses
back to the number. -/
theorem parseNumber_intChars (i : Int) (rest : List Char)
    (hrest : headIsDigit rest = false) :
    parseNumber (intChars i ++ rest) = some (i, rest) := by
  by_cases hneg : i < 0
  · rcases natDigits_parse_core i.natAbs rest hrest with ⟨c, ds, hshape, hd, hp⟩
    simp [intChars, if_pos hneg, hshape, parseNumber, hd, hp]
    simp [Int.natCast_natAbs, abs_of_neg hneg]
  · rcases natDigits_parse_core i.natAbs rest hrest with ⟨c, ds, hshape, hd, hp⟩
    simp [intChars, if_neg hneg, hshape, parseNumber, hd, hp,
      isDigit_ne_minus c hd]
    omega

/-- Hexadecimal digits round-trip through their rendering. -/
theorem hexVal_hexDigit : ∀ x, x < 16 → hexVal (hexDigit x) = some x := by
  decide

/-- Escaped string bodies parse back to the original body, leaving the
input after the closing quote. -/
theorem parseStringBody_escape :
    ∀ (s rest : List Char),
      parseStringBody (escapeString s ++ '"' :: rest) = some (s, rest) := by
  intro s
  induction s with
  | nil =>
    intro rest
    rw [parseStringBody.eq_def]
    simp [escapeString]
  | cons c s ih =>
    intro rest
    have hgoal : escapeString (c :: s) ++ '"' :: rest =
        escapeChar c ++ (escapeString s ++ '"' :: rest) := by
      simp [escapeString]
    rw [hgoal]
    by_cases h1 : c = '"'
    · subst h1
      simp only [escapeChar, reduceIte, List.cons_append, List.nil_append]
      rw [parseStringBody.eq_def]
      simp [unescapeChar, ih rest]
    · by_cases h2 : c = '\\'
      · subst h2
        simp only [escapeChar, reduceIte, List.cons_append, List.nil_append]
        rw [parseStringBody.eq_def]
        simp [unescapeChar, ih rest]
      · by_cases h3 : c = '\x08'
        · subst h3
          simp only [escapeChar, reduceIte, List.cons_append, List.nil_append]
          rw [parseStringBody.eq_def]
          simp [unescapeChar, ih rest]
        · by_cases h4 : c = '\x09'
          · subst h4
            simp only [escapeChar, reduceIte, List.cons_append,
              List.nil_append]
            rw [parseStringBody.eq_def]
            simp [unescapeChar, ih rest]
          · by_cases h5 : c = '\x0a'
            · subst h5
              simp only [escapeChar, reduceIte, List.cons_append,
                List.nil_append]
              rw [parseStringBody.eq_def]
              simp [unescapeChar, ih rest]
            · by_cases h6 : c = '\x0c'
              · subst h6
                simp only [escapeChar, reduceIte, List.cons_append,
                  List.nil_append]
                rw [parseStringBody.eq_def]
                simp [unescapeChar, ih rest]
              · by_cases h7 : c = '\x0d'
                · subst h7
                  simp only [escapeChar, reduceIte, List.cons_append,
                    List.nil_append]
                  rw [parseStringBody.eq_def]
                  simp [unescapeChar, ih rest]
                · by_cases h8 : c.toNat < 32
                  · simp only [escapeChar, if_neg h1, if_neg h2, if_neg h3,
                      if_neg h4, if_neg h5, if_neg h6, if_neg h7, if_pos h8,
                      List.cons_append, List.nil_append]
                    have e1 : c.toNat / 16 < 16 := by omega
                    have e2 : c.toNat % 16 < 16 := by omega
                    rw [parseStringBody.eq_def]
                    simp only [reduceIte, hexVal_hexDigit _ e1,
                      hexVal_hexDigit _ e2, ih rest,
                      (by decide : hexVal '0' = some 0)]
                    have e3 : 4096 * 0 + 256 * 0 + 16 * (c.toNat / 16) +
                        c.toNat % 16 = c.toNat := by omega
                    rw [e3, Char.ofNat_toNat]
                    simp
                  · simp only [escapeChar, if_neg h1, if_neg h2, if_neg h3,
                      if_neg h4, if_neg h5, if_neg h6, if_neg h7, if_neg h8,
                      List.cons_append, List.nil_append]
                    rw [parseStringBody.eq_def]
                    simp [h1, h2, h8, ih rest]

/-- A digit character differs from any non-digit character. -/
theorem isDigit_ne_of (c d : Char) (h : isDigit c = true)
    (hd : isDigit d = false) : c ≠ d := by
  intro he
  subst he
  rw [h] at hd
  exact absurd hd (by decide)

/-- Digit characters are not JSON whitespace. -/
theorem isJsonWs_of_digit (c : Char) (h : isDigit c = true) :
    isJsonWs c = false := by
  simp only [isJsonWs]
  simp [isDigit_ne_of c ' ' h (by decide), isDigit_ne_of c '\x09' h (by decide),
    isDigit_ne_of c '\x0a' h (by decide), isDigit_ne_of c '\x0d' h (by decide)]

/-- Every serialized value starts with a character that is not
whitespace and closes no bracket, so the parser dispatch never
misfires. -/
theorem stringify_head :
    ∀ j : Json, ∃ c t, stringifyVal j = c :: t ∧ isJsonWs c = false ∧
      c ≠ ']' ∧ c ≠ '}'
  | .null => ⟨'n', cs "ull", by decide, by decide, by decide, by decide⟩
  | .bool true => ⟨'t', cs "rue", by decide, by decide, by decide, by decide⟩
  | .bool false =>
    ⟨'f', cs "alse", by decide, by decide, by decide, by decide⟩
  | .num i => by
    by_cases hneg : i < 0
    · exact ⟨'-', natDigits i.natAbs,
        by simp [stringifyVal, intChars, hneg], by decide, by decide,
        by decide⟩
    · rcases hshape : natDigits i.natAbs with _ | ⟨c, ds⟩
      · exact absurd hshape (natDigits_ne_nil _)
      · have hd : isDigit c = true :=
          natDigits_all_digits _ c (by rw [hshape]; simp)
        exact ⟨c, ds, by simp [stringifyVal, intChars, hneg, hshape],
          isJsonWs_of_digit c hd, isDigit_ne_of c ']' hd (by decide),
          isDigit_ne_of c '}' hd (by decide)⟩
  | .str s =>
    ⟨'"', escapeString s ++ ['"'], rfl, by decide, by decide, by decide⟩
  | .arr .nil => ⟨'[', [']'], by decide, by decide, by decide, by decide⟩
  | .arr (.cons v tl) =>
    ⟨'[', stringifyVal v ++ stringifyArrTail tl ++ [']'], rfl, by decide,
      by decide, by decide⟩
  | .obj .nil => ⟨'{', ['}'], by decide, by decide, by decide, by decide⟩
  | .obj (.cons k v tl) =>
    ⟨'{', '"' :: (escapeString k ++ ['"', ':'] ++ stringifyVal v ++
        stringifyObjTail tl ++ ['}']), rfl, by decide, by decide, by decide⟩

/-- The serialized tail of an array, closed by a bracket, never starts
with a digit. -/
theorem headIsDigit_arrTail (tl : JsonArr) (rest : List Char) :
    headIsDigit (stringifyArrTail tl ++ ']' :: rest) = false := by
  cases tl <;> simp [stringifyArrTail, headIsDigit, isDigit]

/-- The serialized tail of an object, closed by a brace, never starts
with a digit. -/
theorem headIsDigit_objTail (tl : JsonObj) (rest : List Char) :
    headIsDigit (stringifyObjTail tl ++ '}' :: rest) = false := by
  cases tl <;> simp [stringifyObjTail, headIsDigit, isDigit]

/-- Every value needs at least one unit of fuel. -/
theorem jfuel_pos : ∀ j : Json, 1 ≤ jfuel j
  | .null => le_refl 1
  | .bool _ => le_refl 1
  | .num _ => le_refl 1
  | .str _ => le_refl 1
  | .arr items => by simp [jfuel]
  | .obj members => by simp [jfuel]

/-- Serialized numbers start with a character the parser dispatches to
the number branch. -/
theorem num_head_facts (i : Int) :
    ∃ c t, intChars i = c :: t ∧ isJsonWs c = false ∧ c ≠ '"' ∧ c ≠ '{' ∧
      c ≠ '[' ∧ c ≠ 't' ∧ c ≠ 'f' ∧ c ≠ 'n' := by
  by_cases hneg : i < 0
  · exact ⟨'-', natDigits i.natAbs, by simp [intChars, hneg], by decide,
      by decide, by decide, by decide, by decide, by decide, by decide⟩
  · rcases hshape : natDigits i.natAbs with _ | ⟨c, ds⟩
    · exact absurd hshape (natDigits_ne_nil _)
    · have hd : isDigit c = true :=
        natDigits_all_digits _ c (by rw [hshape]; simp)
      exact ⟨c, ds, by simp [intChars, hneg, hshape], isJsonWs_of_digit c hd,
        isDigit_ne_of c '"' hd (by decide), isDigit_ne_of c '{' hd (by decide),
        isDigit_ne_of c '[' hd (by decide), isDigit_ne_of c 't' hd (by decide),
        isDigit_ne_of c 'f' hd (by decide), isDigit_ne_of c 'n' hd (by decide)⟩

/-- Whitespace skipping is the identity on serialized values. -/
theorem skipWs_stringify (v : Json) (X : List Char) :
    skipWs (stringifyVal v ++ X) = stringifyVal v ++ X := by
  rcases stringify_head v with ⟨c, t, hsv, hws, _, _⟩
  rw [hsv, List.cons_append]
  simp [skipWs, hws]

/-- A serialized value never starts with a closing bracket. -/
theorem stringify_append_ne_rbracket (v : Json) (X r : List Char) :
    stringifyVal v ++ X = ']' :: r → False := by
  rcases stringify_head v with ⟨c, t, hsv, _, hbr, _⟩
  rw [hsv, List.cons_append]
  intro h
  injection h with h1 _
  exact hbr h1

/-- A serialized value never starts with a closing brace. -/
theorem stringify_append_ne_rbrace (v : Json) (X r : List Char) :
    stringifyVal v ++ X = '}' :: r → False := by
  rcases stringify_head v with ⟨c, t, hsv, _, _, hbc⟩
  rw [hsv, List.cons_append]
  intro h
  injection h with h1 _
  exact hbc h1

/-- Soundness of the parser on serialized values, by induction on the
fuel: with adequate fuel, parsing the serialization of a value, of a
nonempty array tail, or of a nonempty object tail consumes exactly the
serialization and returns the original value. -/
theorem parse_stringify_master : ∀ fuel : Nat,
    (∀ (j : Json) (rest : List Char), jfuel j ≤ fuel →
      headIsDigit rest = false →
      parseVal fuel (stringifyVal j ++ rest) = some (j, rest)) ∧
    (∀ (v : Json) (tl : JsonArr) (rest : List Char),
      afuel (.cons v tl) ≤ fuel →
      parseArrItems fuel
        (stringifyVal v ++ (stringifyArrTail tl ++ ']' :: rest)) =
        some (.cons v tl, rest)) ∧
    (∀ (k : List Char) (v : Json) (tl : JsonObj) (rest : List Char),
      ofuel (.cons k v tl) ≤ fuel →
      parseObjItems fuel
        ('"' :: (escapeString k ++ '"' :: ':' ::
          (stringifyVal v ++ (stringifyObjTail tl ++ '}' :: rest)))) =
        some (.cons k v tl, rest)) := by
  intro fuel
  induction fuel with
  | zero =>
    refine ⟨fun j rest hf _ => absurd hf (by have := jfuel_pos j; omega),
      fun v tl rest hf => absurd hf (by simp [afuel]),
      fun k v tl rest hf => absurd hf (by simp [ofuel])⟩
  | succ fuel ih =>
    obtain ⟨ihP, ihQ, ihR⟩ := ih
    refine ⟨?_, ?_, ?_⟩
    · intro j rest hf hrest
      cases j with
      | null => rfl
      | bool b => cases b <;> rfl
      | num i =>
        rcases num_head_facts i with ⟨c, t, hic, hws, h1, h2, h3, h4, h5, h6⟩
        rw [parseVal.eq_def]
        simp only [stringifyVal, hic, List.cons_append]
        simp only [skipWs, hws, Bool.false_eq_true, if_false]
        simp only [h1, h2, h3, h4, h5, h6, if_false]
        rw [show c :: (t ++ rest) = intChars i ++ rest by
          rw [← List.cons_append, ← hic]]
        rw [parseNumber_intChars i rest hrest]
      | str s =>
        show (match parseStringBody ((escapeString s ++ ['"']) ++ rest) with
          | some (body, r) => some (Json.str body, r)
          | none => none) = some (.str s, rest)
        rw [show (escapeString s ++ ['"']) ++ rest =
          escapeString s ++ '"' :: rest by simp]
        rw [parseStringBody_escape s rest]
      | arr items =>
        cases items with
        | nil => rfl
        | cons v tl =>
          have hf2 : afuel (.cons v tl) ≤ fuel := by
            simp only [jfuel] at hf
            omega
          show (match
              skipWs (((stringifyVal v ++ stringifyArrTail tl) ++ [']']) ++
                rest) with
            | ']' :: r => some (Json.arr JsonArr.nil, r)
            | _ =>
              match parseArrItems fuel
                  (((stringifyVal v ++ stringifyArrTail tl) ++ [']']) ++
                    rest) with
              | some (items, r) => some (Json.arr items, r)
              | none => none) = some (.arr (.cons v tl), rest)
          rw [show ((stringifyVal v ++ stringifyArrTail tl) ++ [']']) ++ rest =
            stringifyVal v ++ (stringifyArrTail tl ++ ']' :: rest) by simp]
          rw [skipWs_stringify]
          split
          next r heq => exact absurd heq (stringify_append_ne_rbracket v _ r)
          next => rw [ihQ v tl rest hf2]
      | obj members =>
        cases members with
        | nil => rfl
        | cons k v tl =>
          have hf2 : ofuel (.cons k v tl) ≤ fuel := by
            simp only [jfuel] at hf
            omega
          show (match parseObjItems fuel
              ('"' :: ((((escapeString k ++ ['"', ':']) ++ stringifyVal v) ++
                stringifyObjTail tl ++ ['}']) ++ rest)) with
            | some (members, r) => some (Json.obj members, r)
            | none => none) = some (.obj (.cons k v tl), rest)
          rw [show (((escapeString k ++ ['"', ':']) ++ stringifyVal v) ++
              stringifyObjTail tl ++ ['}']) ++ rest =
            escapeString k ++ '"' :: ':' ::
              (stringifyVal v ++ (stringifyObjTail tl ++ '}' :: rest)) by
            simp]
          rw [ihR k v tl rest hf2]
    · intro v tl rest hf
      have hjv : jfuel v ≤ fuel := by
        simp only [afuel] at hf
        omega
      show (match parseVal fuel
          (stringifyVal v ++ (stringifyArrTail tl ++ ']' :: rest)) with
        | none => none
        | some (v2, r) =>
          match skipWs r with
          | ',' :: r2 =>
            match parseArrItems fuel r2 with
            | some (items, r3) => some (JsonArr.cons v2 items, r3)
            | none => none
          | ']' :: r2 => some (JsonArr.cons v2 JsonArr.nil, r2)
          | _ => none) = some (.cons v tl, rest)
      rw [ihP v (stringifyArrTail tl ++ ']' :: rest) hjv
        (headIsDigit_arrTail tl rest)]
      cases tl with
      | nil => rfl
      | cons v2 tl2 =>
        have hf2 : afuel (.cons v2 tl2) ≤ fuel := by
          simp only [afuel] at hf ⊢
          omega
        show (match skipWs ((',' ::
            (stringifyVal v2 ++ stringifyArrTail tl2)) ++ ']' :: rest) with
          | ',' :: r2 =>
            match parseArrItems fuel r2 with
            | some (items, r3) => some (JsonArr.cons v items, r3)
            | none => none
          | ']' :: r2 => some (JsonArr.cons v JsonArr.nil, r2)
          | _ => none) = some (.cons v (.cons v2 tl2), rest)
        rw [show (',' :: (stringifyVal v2 ++ stringifyArrTail tl2)) ++
            ']' :: rest =
          ',' :: (stringifyVal v2 ++ (stringifyArrTail tl2 ++ ']' :: rest)) by
          simp]
        rw [show skipWs (',' :: (stringifyVal v2 ++
            (stringifyArrTail tl2 ++ ']' :: rest))) =
          ',' :: (stringifyVal v2 ++ (stringifyArrTail tl2 ++ ']' :: rest)) by
          simp [skipWs, isJsonWs]]
        show (match parseArrItems fuel
            (stringifyVal v2 ++ (stringifyArrTail tl2 ++ ']' :: rest)) with
          | some (items, r3) => some (JsonArr.cons v items, r3)
          | none => none) = some (.cons v (.cons v2 tl2), rest)
        rw [ihQ v2 tl2 rest hf2]
    · intro k v tl rest hf
      have hjv : jfuel v ≤ fuel := by
        simp only [ofuel] at hf
        omega
      show (match skipWs ('"' :: (escapeString k ++ '"' :: ':' ::
          (stringifyVal v ++ (stringifyObjTail tl ++ '}' :: rest)))) with
        | '"' :: rest2 =>
          match parseStringBody rest2 with
          | none => none
          | some (k2, r) =>
            match skipWs r with
            | ':' :: r2 =>
              match parseVal fuel r2 with
              | none => none
              | some (v2, r3) =>
                match skipWs r3 with
                | ',' :: r4 =>
                  match parseObjItems fuel r4 with
                  | some (members, r5) => some (JsonObj.cons k2 v2 members, r5)
                  | none => none
                | '}' :: r4 => some (JsonObj.cons k2 v2 JsonObj.nil, r4)
                | _ => none
            | _ => none
        | _ => none) = some (.cons k v tl, rest)
      rw [show skipWs ('"' :: (escapeString k ++ '"' :: ':' ::
          (stringifyVal v ++ (stringifyObjTail tl ++ '}' :: rest)))) =
        '"' :: (escapeString k ++ '"' :: ':' ::
          (stringifyVal v ++ (stringifyObjTail tl ++ '}' :: rest))) by
        simp [skipWs, isJsonWs]]
      show (match parseStringBody (escapeString k ++ '"' :: ':' ::
          (stringifyVal v ++ (stringifyObjTail tl ++ '}' :: rest))) with
        | none => none
        | some (k2, r) =>
          match skipWs r with
          | ':' :: r2 =>
            match parseVal fuel r2 with
            | none => none
            | some (v2, r3) =>
              match skipWs r3 with
              | ',' :: r4 =>
                match parseObjItems fuel r4 with
                | some (members, r5) => some (JsonObj.cons k2 v2 members, r5)
                | none => none
              | '}' :: r4 => some (JsonObj.cons k2 v2 JsonObj.nil, r4)
              | _ => none
          | _ => none) = some (.cons k v tl, rest)
      rw [parseStringBody_escape k (':' ::
        (stringifyVal v ++ (stringifyObjTail tl ++ '}' :: rest)))]
      show (match parseVal fuel
          (stringifyVal v ++ (stringifyObjTail tl ++ '}' :: rest)) with
        | none => none
        | some (v2, r3) =>
          match skipWs r3 with
          | ',' :: r4 =>
            match parseObjItems fuel r4 with
            | some (members, r5) => some (JsonObj.cons k v2 members, r5)
            | none => none
          | '}' :: r4 => some (JsonObj.cons k v2 JsonObj.nil, r4)
          | _ => none) = some (.cons k v tl, rest)
      rw [ihP v (stringifyObjTail tl ++ '}' :: rest) hjv
        (headIsDigit_objTail tl rest)]
      cases tl with
      | nil => rfl
      | cons k2 v2 tl2 =>
        have hf3 : ofuel (.cons k2 v2 tl2) ≤ fuel := by
          simp only [ofuel] at hf ⊢
          omega
        show (match skipWs ((',' :: '"' :: (escapeString k2 ++ ['"', ':'] ++
            stringifyVal v2 ++ stringifyObjTail tl2)) ++ '}' :: rest) with
          | ',' :: r4 =>
            match parseObjItems fuel r4 with
            | some (members, r5) => some (JsonObj.cons k v members, r5)
            | none => none
          | '}' :: r4 => some (JsonObj.cons k v JsonObj.nil, r4)
          | _ => none) = some (.cons k v (.cons k2 v2 tl2), rest)
        rw [show (',' :: '"' :: (escapeString k2 ++ ['"', ':'] ++
            stringifyVal v2 ++ stringifyObjTail tl2)) ++ '}' :: rest =
          ',' :: '"' :: (escapeString k2 ++ '"' :: ':' ::
            (stringifyVal v2 ++ (stringifyObjTail tl2 ++ '}' :: rest))) by
          simp]
        rw [show skipWs (',' :: '"' :: (escapeString k2 ++ '"' :: ':' ::
            (stringifyVal v2 ++ (stringifyObjTail tl2 ++ '}' :: rest)))) =
          ',' :: '"' :: (escapeString k2 ++ '"' :: ':' ::
            (stringifyVal v2 ++ (stringifyObjTail tl2 ++ '}' :: rest))) by
          simp [skipWs, isJsonWs]]
        show (match parseObjItems fuel ('"' :: (escapeString k2 ++ '"' :: ':' ::
            (stringifyVal v2 ++ (stringifyObjTail tl2 ++ '}' :: rest)))) with
          | some (members, r5) => some (JsonObj.cons k v members, r5)
          | none => none) = some (.cons k v (.cons k2 v2 tl2), rest)
        rw [ihR k2 v2 tl2 rest hf3]

/-- Serialized values are nonempty. -/
theorem stringify_length_pos (j : Json) : 1 ≤ (stringifyVal j).length := by
  rcases stringify_head j with ⟨c, t, hsv, _, _, _⟩
  rw [hsv]
  simp

/-!
The fuel jsonParse supplies, one more than the input length, is
adequate for every serialized value.
-/
mutual
theorem jfuel_le_length : ∀ j : Json, jfuel j ≤ (stringifyVal j).length
  | .null => by decide
  | .bool true => by decide
  | .bool false => by decide
  | .num i => by
    have := natDigits_ne_nil i.natAbs
    have hlen : 1 ≤ (natDigits i.natAbs).length := by
      cases h : natDigits i.natAbs with
      | nil => exact absurd h this
      | cons c t => simp
    simp only [jfuel, stringifyVal, intChars]
    split <;> simp <;> omega
  | .str s => by simp [jfuel, stringifyVal]
  | .arr .nil => by decide
  | .arr (.cons v tl) => by
    have h1 := jfuel_le_length v
    have h2 := afuel_le_length tl
    have h3 := stringify_length_pos v
    simp only [jfuel, afuel, stringifyVal, List.length_cons,
      List.length_append, List.length_singleton]
    omega
  | .obj .nil => by decide
  | .obj (.cons k v tl) => by
    have h1 := jfuel_le_length v
    have h2 := ofuel_le_length tl
    simp only [jfuel, ofuel, stringifyVal, List.length_cons,
      List.length_append, List.length_singleton]
    omega
theorem afuel_le_length :
    ∀ a : JsonArr, afuel a ≤ (stringifyArrTail a).length + 1
  | .nil => by simp [afuel, stringifyArrTail]
  | .cons v tl => by
    have h1 := jfuel_le_length v
    have h2 := afuel_le_length tl
    simp only [afuel, stringifyArrTail, List.length_cons, List.length_append]
    omega
theorem ofuel_le_length :
    ∀ o : JsonObj, ofuel o ≤ (stringifyObjTail o).length + 1
  | .nil => by simp [ofuel, stringifyObjTail]
  | .cons k v tl => by
    have h1 := jfuel_le_length v
    have h2 := ofuel_le_length tl
    simp only [ofuel, stringifyObjTail, List.length_cons, List.length_append]
    omega
end

/-- Parsing a serialized value recovers the value: the JSON round trip
underlying token decoding. -/
theorem jsonParse_stringify (j : Json) :
    jsonParse (stringifyVal j) = some j := by
  unfold jsonParse
  have h := (parse_stringify_master ((stringifyVal j).length + 1)).1 j []
    (by have := jfuel_le_length j; omega) (by simp [headIsDigit])
  rw [List.append_nil] at h
  rw [h]
  simp [skipWs]

/-- Dots never appear in a base64url segment. -/
theorem base64UrlEncode_no_dot (s : List Char) :
    '.' ∉ base64UrlEncode s := toBase64Url_no_dot _

/-- Forgiving decode inverts base64url encoding on ASCII input whose
segment avoids the two url-alphabet characters. -/
theorem base64UrlEncode_atob (s : List Char) (hascii : allAscii s = true)
    (hdash : '-' ∉ base64UrlEncode s) (hus : '_' ∉ base64UrlEncode s) :
    atob (base64UrlEncode s) = some (utf8Encode s) := by
  unfold base64UrlEncode at *
  exact atob_toBase64Url_btoa _ (utf8_ascii_lt256 s hascii)
    (sixbits_lt62_of_no_url _ (utf8_ascii_lt256 s hascii) hdash hus)

/-- The binary string of the UTF-8 bytes of an ASCII string is the
string itself. -/
theorem binaryOf_utf8 (s : List Char) (h : allAscii s = true) :
    binaryOf (utf8Encode s) = s := by
  rw [utf8_ascii s h, binaryOf_map_toNat]

/-- Supported algorithm identifiers are nonempty strings. -/
theorem supported_ne_nil : ∀ alg ∈ getSupportedAlgorithms, alg ≠ [] := by
  decide

/-- Signing succeeds for every supported algorithm and yields a
dot-free signature. -/
theorem signJwt_ok_of_supported (H : HmacFamily) (data secret : List Char) :
    ∀ alg ∈ getSupportedAlgorithms,
      ∃ sig, signJwt H data secret (.str alg) = .ok sig ∧ '.' ∉ sig := by
  intro alg hmem
  simp only [getSupportedAlgorithms, List.mem_cons, List.not_mem_nil,
    or_false] at hmem
  rcases hmem with rfl | rfl | rfl | rfl
  · exact ⟨_, rfl, toBase64Url_no_dot _⟩
  · exact ⟨_, rfl, toBase64Url_no_dot _⟩
  · exact ⟨_, rfl, toBase64Url_no_dot _⟩
  · exact ⟨[], rfl, by decide⟩

/-- The normalized header always carries the algorithm under the alg
key. -/
theorem fullHeader_alg (h : JsonObj) (alg : List Char) :
    objGet (encodeJwtFullHeader h alg) (cs "alg") = some (.str alg) := by
  unfold encodeJwtFullHeader
  rw [objGet_objSet_diff _ _ _ _ (by decide : (cs "typ") ≠ (cs "alg")),
    objGet_objSet_same]

/-- Claim C1, counterexample: with algorithm none the signature is the
empty string regardless of the secret, so a token encoded under one
secret verifies under a different secret, where the claim demands
rejection. -/
theorem verify_none_wrong_secret_cx :
    encodeJwt testHmac .nil .nil (cs "a") (cs "none") =
      .ok (cs "eyJhbGciOiJub25lIiwidHlwIjoiSldUIn0.e30.") ∧
    verifyJwtSignature testHmac
      (cs "eyJhbGciOiJub25lIiwidHlwIjoiSldUIn0.e30.") (cs "b") =
      ⟨true, none⟩ ∧
    cs "b" ≠ cs "a" :=
  ⟨by decide, by decide, by decide⟩

/-- Claim C1, amended: for every supported algorithm, a token encoded
with a non-empty secret verifies under that same secret, provided the
encoded header segment is ASCII and free of the url-alphabet
characters minus and underscore, which the decoder-side atob rejects.
A wrong secret is rejected for the HMAC algorithms whenever its
recomputed signature differs from the token's signature; for the
algorithm none, whose signature is empty, every non-empty secret
verifies, so wrong secrets are accepted. -/
theorem verify_encode_soundness (H : HmacFamily) (h p : JsonObj)
    (secret alg : List Char)
    (halg : alg ∈ getSupportedAlgorithms)
    (hsecret : secret ≠ [])
    (hascii : allAscii (stringifyVal (.obj (encodeJwtFullHeader h alg))) =
      true)
    (hdash : '-' ∉
      base64UrlEncode (stringifyVal (.obj (encodeJwtFullHeader h alg))))
    (hus : '_' ∉
      base64UrlEncode (stringifyVal (.obj (encodeJwtFullHeader h alg)))) :
    ∃ t sig,
      encodeJwt H h p secret alg = .ok t ∧
      signJwt H
        (base64UrlEncode (stringifyVal (.obj (encodeJwtFullHeader h alg))) ++
          '.' :: base64UrlEncode (stringifyVal (.obj p))) secret
        (.str alg) = .ok sig ∧
      t = base64UrlEncode (stringifyVal (.obj (encodeJwtFullHeader h alg))) ++
        '.' :: (base64UrlEncode (stringifyVal (.obj p)) ++ '.' :: sig) ∧
      verifyJwtSignature H t secret = ⟨true, none⟩ ∧
      (∀ secret2 sig2, secret2 ≠ [] →
        signJwt H
          (base64UrlEncode (stringifyVal (.obj (encodeJwtFullHeader h alg))) ++
            '.' :: base64UrlEncode (stringifyVal (.obj p))) secret2
          (.str alg) = .ok sig2 → sig2 ≠ sig →
        verifyJwtSignature H t secret2 =
          ⟨false, some (cs "Signature verification failed")⟩) ∧
      (alg = cs "none" → ∀ secret2, secret2 ≠ [] →
        verifyJwtSignature H t secret2 = ⟨true, none⟩) := by
  obtain ⟨sig, hsig, hsigdot⟩ :=
    signJwt_ok_of_supported H
      (base64UrlEncode (stringifyVal (.obj (encodeJwtFullHeader h alg))) ++
        '.' :: base64UrlEncode (stringifyVal (.obj p))) secret alg halg
  have hatob : atob
      (base64UrlEncode (stringifyVal (.obj (encodeJwtFullHeader h alg)))) =
      some (utf8Encode (stringifyVal (.obj (encodeJwtFullHeader h alg)))) :=
    base64UrlEncode_atob _ hascii hdash hus
  have hparse : jsonParse (binaryOf
      (utf8Encode (stringifyVal (.obj (encodeJwtFullHeader h alg))))) =
      some (.obj (encodeJwtFullHeader h alg)) := by
    rw [binaryOf_utf8 _ hascii]
    exact jsonParse_stringify (.obj (encodeJwtFullHeader h alg))
  have halgmem : jsGetMem (.obj (encodeJwtFullHeader h alg)) (cs "alg") =
      some (.str alg) := fullHeader_alg h alg
  have htruthy : jsTruthy (.str alg) = true := by
    simp [jsTruthy, supported_ne_nil alg halg]
  have hverify : ∀ secret2 sig2, secret2 ≠ [] →
      signJwt H
        (base64UrlEncode (stringifyVal (.obj (encodeJwtFullHeader h alg))) ++
          '.' :: base64UrlEncode (stringifyVal (.obj p))) secret2
        (.str alg) = .ok sig2 →
      verifyJwtSignature H
        (base64UrlEncode (stringifyVal (.obj (encodeJwtFullHeader h alg))) ++
          '.' :: (base64UrlEncode (stringifyVal (.obj p)) ++ '.' :: sig))
        secret2 =
        if sig = sig2 then ⟨true, none⟩
        else ⟨false, some (cs "Signature verification failed")⟩ := by
    intro secret2 sig2 hsec2 hsig2
    exact verify_parts H _ _ sig secret2 hsec2 (base64UrlEncode_no_dot _)
      (base64UrlEncode_no_dot _) hsigdot _ hatob _ hparse _ halgmem htruthy
      sig2 hsig2
  refine ⟨base64UrlEncode (stringifyVal (.obj (encodeJwtFullHeader h alg))) ++
    '.' :: (base64UrlEncode (stringifyVal (.obj p)) ++ '.' :: sig), sig,
    ?_, hsig, rfl, ?_, ?_, ?_⟩
  · unfold encodeJwt
    simp only [hsig]
    simp [List.append_assoc]
  · rw [hverify secret sig hsecret hsig]
    rw [if_pos rfl]
  · intro secret2 sig2 hsec2 hsig2 hne
    rw [hverify secret2 sig2 hsec2 hsig2]
    rw [if_neg (fun he => hne he.symm)]
  · intro hnone secret2 hsec2
    subst hnone
    have hsig0 : sig = [] := by
      have h2 : (Except.ok [] : Except (List Char) (List Char)) =
          Except.ok sig := by
        rw [← hsig]
        rfl
      injection h2 with h3
      exact h3.symm
    have hsig2 : signJwt H
        (base64UrlEncode
          (stringifyVal (.obj (encodeJwtFullHeader h (cs "none")))) ++
          '.' :: base64UrlEncode (stringifyVal (.obj p))) secret2
        (.str (cs "none")) = .ok sig := by
      rw [hsig0]
      rfl
    rw [hverify secret2 sig hsec2 hsig2]
    rw [if_pos rfl]

/-- Witness for the amended claim C1: a token encoded and verified
under the same secret for HS256, the none-algorithm token accepted
under a different secret, and a concrete wrong-secret rejection for
HS256. -/
theorem verify_encode_soundness_witness :
    (∃ t, encodeJwt testHmac .nil .nil (cs "aa") (cs "HS256") = .ok t ∧
      verifyJwtSignature testHmac t (cs "aa") = ⟨true, none⟩) ∧
    (∃ t, encodeJwt testHmac .nil .nil (cs "a") (cs "none") = .ok t ∧
      verifyJwtSignature testHmac t (cs "b") = ⟨true, none⟩) ∧
    verifyJwtSignature testHmac
      (cs "eyJhbGciOiJIUzI1NiIsInR5cCI6IkpXVCJ9.e30." ++
        toBase64Url (btoaChars (testHmac.hs256
          (cs "eyJhbGciOiJIUzI1NiIsInR5cCI6IkpXVCJ9.e30") (cs "aa"))))
      (cs "ab") = ⟨false, some (cs "Signature verification failed")⟩ := by
  refine ⟨?_, ?_, by decide⟩
  · obtain ⟨t, sig, h1, _, _, h4, _, _⟩ :=
      verify_encode_soundness testHmac .nil .nil (cs "aa") (cs "HS256")
        (by decide) (by decide) (by decide) (by decide) (by decide)
    exact ⟨t, h1, h4⟩
  · obtain ⟨t, sig, h1, _, _, _, _, h6⟩ :=
      verify_encode_soundness testHmac .nil .nil (cs "a") (cs "none")
        (by decide) (by decide) (by decide) (by decide) (by decide)
    exact ⟨t, h1, h6 rfl (cs "b") (by decide)⟩

/-- Claim C2: the round trip fails on the code.  The encoder emits an
unpadded base64url payload segment containing a minus character, and
the decoder hands that segment to atob, which rejects it, so decoding
the encoded token fails outright instead of returning the payload. -/
theorem decodeJwt_encodeJwt_mismatch :
    encodeJwt testHmac .nil (.cons (cs "a") (.str (cs "~~~")) .nil)
      (cs "x") (cs "none") =
      .ok (cs "eyJhbGciOiJub25lIiwidHlwIjoiSldUIn0.eyJhIjoifn5-In0.") ∧
    decodeJwt (cs "eyJhbGciOiJub25lIiwidHlwIjoiSldUIn0.eyJhIjoifn5-In0.") =
      ⟨false, none, some atobErrMsg⟩ ∧
    '-' ∈ cs "eyJhIjoifn5-In0" ∧
    atob (cs "eyJhIjoifn5-In0") = none :=
  ⟨by decide, by decide, by decide, by decide⟩
